import Mathlib

/-!
# A shallow embedding of the 6502 emulator in `src/main.cpp`

The C++ program keeps a 64 KiB byte array (`Mem`) and a register file (`CPU`),
and runs a fetch/decode/execute loop (`CPU::Execute`) against a cycle counter.

Conventions of the embedding:

* `Byte` (unsigned char), `Word` (unsigned short) and `u32` (unsigned int) values are
  natural numbers; every place where the C++ arithmetic wraps carries an explicit
  `% 256`, `% 65536` or `% 4294967296`.
* The one-bit status fields are `Bool`s.
* An access to `Data[i]` with `i` outside `0 .. MAX_MEM - 1` has no defined result in
  C++; the embedding returns `none` for it, so all memory operations live in `Option`.
* `u32 &Cycles` is threaded through explicitly: operations take the counter and return
  the new counter.
* The `while` loop of `Execute` is a function with an iteration bound (`fuel`);
  running out of iterations is a separate outcome, distinct from returning.
* The text written by `printf` is not part of the modelled state.
-/

namespace Emu6502

/-! ## Machine integers -/

/-- Conversion of an `int` result to `Byte` (unsigned char). -/
def toByte (n : Nat) : Nat := n % 256

/-- Conversion of an `int` result to `Word` (unsigned short). -/
def toWord (n : Nat) : Nat := n % 65536

/-- The statement `Cycles--` on a `u32`: subtraction of one modulo `2^32`. -/
def decU32 (Cycles : Nat) : Nat := (Cycles + 4294967296 - 1) % 4294967296

/-! ## Memory (`struct Mem`) -/

/-- The constant `Mem::MAX_MEM = 1024 * 64`. -/
def MAX_MEM : Nat := 1024 * 64

/-- The structure `Mem`: the array `Byte Data[MAX_MEM]`, as a function from indices. Only the
indices below `MAX_MEM` are cells of the array. -/
structure Mem where
  Data : Nat → Nat

/-- The loop `for (u32 i = 0; i < n; i++) Data[i] = 0;` after `n` iterations: iteration
`i` (the last one performed by `initLoop (i + 1)`) stores `0` at index `i`. -/
def Mem.initLoop : Nat → (Nat → Nat) → (Nat → Nat)
  | 0, d => d
  | i + 1, d => fun a => if a = i then 0 else Mem.initLoop i d a

/-- The method `Mem::Initialize`: the zeroing loop run up to `MAX_MEM`. -/
def Mem.Initialize (m : Mem) : Mem := ⟨Mem.initLoop MAX_MEM m.Data⟩

/-- The reading `operator[]`: `Data[Address]`, defined only inside the array. -/
def Mem.read (m : Mem) (Address : Nat) : Option Nat :=
  if Address < MAX_MEM then some (m.Data Address) else none

/-- The writing `operator[]` followed by an assignment: `Data[Address] = Value`, defined
only inside the array. -/
def Mem.write (m : Mem) (Address : Nat) (Value : Nat) : Option Mem :=
  if Address < MAX_MEM then
    some ⟨fun a => if a = Address then Value else m.Data a⟩
  else none

/-- The method `Mem::WriteWord (Value, Address, Cycles)`: low byte at `Address`, one cycle, high
byte at `Address + 1`, one cycle. Returns the new memory and the new cycle counter. -/
def Mem.WriteWord (m : Mem) (Value Address Cycles : Nat) : Option (Mem × Nat) := do
  let m ← m.write Address (toByte (Value &&& 0xff))
  let Cycles := decU32 Cycles
  let m ← m.write (Address + 1) (toByte (Value >>> 8))
  let Cycles := decU32 Cycles
  some (m, Cycles)

/-! ## Processor (`struct CPU`) -/

/-- The structure `CPU`: program counter and stack pointer (`Word`), the registers `A`, `X`, `Y`
(`Byte`) and the seven one-bit status fields. -/
structure CPU where
  PC : Nat
  SP : Nat
  A : Nat
  X : Nat
  Y : Nat
  C : Bool
  Z : Bool
  I : Bool
  D : Bool
  B : Bool
  V : Bool
  N : Bool

/-- Opcode constant `INS_LDA_IM`. -/
def INS_LDA_IM : Nat := 0xA9
/-- Opcode constant `INS_LDA_ZP`. -/
def INS_LDA_ZP : Nat := 0x45
/-- Opcode constant `INS_LDA_ZPX`. -/
def INS_LDA_ZPX : Nat := 0xB5
/-- Opcode constant `INS_JSR`. -/
def INS_JSR : Nat := 0x20

/-- The method `CPU::Reset`, statement by statement. The chained assignment on the third line of
the body is `C = X = I = D = B = V = N = 0`: it names `X`, and it does not name `Z`. -/
def CPU.Reset (cpu : CPU) (memory : Mem) : CPU × Mem :=
  let cpu := { cpu with PC := 0xFFFC }
  let cpu := { cpu with SP := 0x0100 }
  let cpu := { cpu with N := false, V := false, B := false, D := false, I := false,
                        X := 0, C := false }
  let cpu := { cpu with Y := 0, X := 0, A := 0 }
  (cpu, memory.Initialize)

/-- The method `CPU::FetchByte`: read `memory[PC]`, `PC++`, `Cycles--`. Returns the byte, the new
processor state and the new cycle counter. -/
def CPU.FetchByte (cpu : CPU) (Cycles : Nat) (memory : Mem) : Option (Nat × CPU × Nat) := do
  let Data ← memory.read cpu.PC
  let cpu := { cpu with PC := toWord (cpu.PC + 1) }
  let Cycles := decU32 Cycles
  some (Data, cpu, Cycles)

/-- The method `CPU::FetchWord`: two byte reads at `PC`, the second shifted left by 8 and or-ed in;
`PC++` and `Cycles--` after each read. -/
def CPU.FetchWord (cpu : CPU) (Cycles : Nat) (memory : Mem) : Option (Nat × CPU × Nat) := do
  let Data ← memory.read cpu.PC
  let cpu := { cpu with PC := toWord (cpu.PC + 1) }
  let Cycles := decU32 Cycles
  let hi ← memory.read cpu.PC
  let Data := toWord (Data ||| (hi <<< 8))
  let cpu := { cpu with PC := toWord (cpu.PC + 1) }
  let Cycles := decU32 Cycles
  some (Data, cpu, Cycles)

/-- The method `CPU::ReadByte`: read `memory[Address]` without touching `PC`, `Cycles--`. -/
def CPU.ReadByte (_cpu : CPU) (Cycles : Nat) (Address : Nat) (memory : Mem) :
    Option (Nat × Nat) := do
  let Data ← memory.read Address
  let Cycles := decU32 Cycles
  some (Data, Cycles)

/-- The method `CPU::LDASetStatus`: `Z = (A == 0); N = (A & 0b10000000) > 0;`. -/
def CPU.LDASetStatus (cpu : CPU) : CPU :=
  let cpu := { cpu with Z := decide (cpu.A = 0) }
  { cpu with N := decide ((cpu.A &&& 0b10000000) > 0) }

/-- One iteration of the `while` loop of `CPU::Execute`: the opcode fetch and the `switch`. -/
def CPU.ExecuteStep (cpu : CPU) (Cycles : Nat) (memory : Mem) : Option (CPU × Nat × Mem) := do
  let (ins, cpu, Cycles) ← cpu.FetchByte Cycles memory
  if ins = INS_LDA_IM then
    let (Value, cpu, Cycles) ← cpu.FetchByte Cycles memory
    let cpu := { cpu with A := Value }
    some (cpu.LDASetStatus, Cycles, memory)
  else if ins = INS_LDA_ZP then
    let (ZeroPageAddress, cpu, Cycles) ← cpu.FetchByte Cycles memory
    let (Value, Cycles) ← cpu.ReadByte Cycles ZeroPageAddress memory
    let cpu := { cpu with A := Value }
    some (cpu.LDASetStatus, Cycles, memory)
  else if ins = INS_LDA_ZPX then
    let (ZeroPageAddress, cpu, Cycles) ← cpu.FetchByte Cycles memory
    let ZeroPageAddress := toByte (ZeroPageAddress + cpu.X)
    let Cycles := decU32 Cycles
    let (Value, Cycles) ← cpu.ReadByte Cycles ZeroPageAddress memory
    let cpu := { cpu with A := Value }
    some (cpu.LDASetStatus, Cycles, memory)
  else if ins = INS_JSR then
    let (JumpAddr, cpu, Cycles) ← cpu.FetchWord Cycles memory
    let (memory, Cycles) ← memory.WriteWord (toWord (cpu.PC + 65536 - 1)) cpu.SP Cycles
    let cpu := { cpu with SP := toWord (cpu.SP + 1) }
    let cpu := { cpu with PC := JumpAddr }
    let Cycles := decU32 Cycles
    some (cpu, Cycles, memory)
  else
    some (cpu, Cycles, memory)

/-- How a bounded run of `CPU::Execute` ends. -/
inductive Outcome where
  /-- The loop condition `Cycles > 0` was false: control is back at the caller, with this
  processor state, final value of the local counter, and memory. -/
  | returned (cpu : CPU) (Cycles : Nat) (memory : Mem)
  /-- An array access outside `Data` happened. -/
  | fault
  /-- The iteration bound ran out while `Cycles > 0` still held. -/
  | unfinished

/-- The method `CPU::Execute`: `while (Cycles > 0) { ... }`, with at most `fuel` iterations. -/
def CPU.Execute : Nat → CPU → Nat → Mem → Outcome
  | 0, cpu, Cycles, memory =>
    if Cycles > 0 then Outcome.unfinished else Outcome.returned cpu Cycles memory
  | fuel + 1, cpu, Cycles, memory =>
    if Cycles > 0 then
      match cpu.ExecuteStep Cycles memory with
      | some (cpu, Cycles, memory) => CPU.Execute fuel cpu Cycles memory
      | none => Outcome.fault
    else Outcome.returned cpu Cycles memory

/-- The program image poked into memory by `main`, one assignment per line. -/
def loadProgram (mem : Mem) : Option Mem := do
  let mem ← mem.write 0xFFFC INS_JSR
  let mem ← mem.write 0xFFFD 0x42
  let mem ← mem.write 0xFFFE 0xAA
  let mem ← mem.write 0xAA42 INS_JSR
  let mem ← mem.write 0xAA43 0x15
  let mem ← mem.write 0xAA44 0xAE
  let mem ← mem.write 0xAE15 INS_LDA_IM
  let mem ← mem.write 0xAE16 5
  some mem

/-- The function `main`: `cpu.Reset(mem)`, the eight pokes, `cpu.Execute(20, mem)`. The
objects `mem` and `cpu` are declared without initialiser, so their prior contents are
parameters. -/
def main (cpu : CPU) (mem : Mem) (fuel : Nat) : Outcome :=
  let (cpu, mem) := cpu.Reset mem
  match loadProgram mem with
  | some mem => cpu.Execute fuel 20 mem
  | none => Outcome.fault

/-! ## Well-formed states: the values the C++ types can hold -/

/-- Every register holds a value of its C++ type. -/
def CPU.WF (cpu : CPU) : Prop :=
  cpu.PC < 65536 ∧ cpu.SP < 65536 ∧ cpu.A < 256 ∧ cpu.X < 256 ∧ cpu.Y < 256

/-- Every cell of `Data` holds a `Byte`. -/
def Mem.WF (m : Mem) : Prop := ∀ a, a < MAX_MEM → m.Data a < 256

/-! ## Concrete inputs used to run the code -/

/-- A memory image: the listed `(address, byte)` pairs, and 0 in every other cell. -/
def Mem.ofList (l : List (Nat × Nat)) : Mem := ⟨fun a => (l.lookup a).getD 0⟩

/-- A processor with the given `PC`, `SP` and `X`, with `A = Y = 0` and all flags clear. -/
def CPU.zeroed (PC SP X : Nat) : CPU :=
  ⟨PC, SP, 0, X, 0, false, false, false, false, false, false, false⟩

/-- The memory contents built by `main`: zero-filled, then the eight pokes. -/
def mainImage : Mem :=
  Mem.ofList [(0xFFFC, 0x20), (0xFFFD, 0x42), (0xFFFE, 0xAA), (0xAA42, 0x20), (0xAA43, 0x15),
    (0xAA44, 0xAE), (0xAE15, 0xA9), (0xAE16, 5)]

/-- A zero-filled memory with `LDA #5` poked at the reset address `0xFFFC`. -/
def ldaImage : Mem := Mem.ofList [(0xFFFC, 0xA9), (0xFFFD, 5)]

/-- A zero-filled memory with `LDA 0x80,X` poked at `0xFFFC` and the byte `0x33` at `0x007F`. -/
def zpxImage : Mem := Mem.ofList [(0xFFFC, 0xB5), (0xFFFD, 0x80), (0x007F, 0x33)]

/-! ## Observations and memory agreement -/

/-- Two memories hold the same byte in every cell of the array (indices below `MAX_MEM`). -/
def Mem.agree (m1 m2 : Mem) : Prop := ∀ a, a < MAX_MEM → m1.Data a = m2.Data a

/-- Two outcomes are the same up to what lies outside the array. -/
def Outcome.agree : Outcome → Outcome → Prop
  | Outcome.returned cpu1 c1 m1, Outcome.returned cpu2 c2 m2 =>
    cpu1 = cpu2 ∧ c1 = c2 ∧ Mem.agree m1 m2
  | Outcome.fault, Outcome.fault => True
  | Outcome.unfinished, Outcome.unfinished => True
  | _, _ => False

/-- The processor state and final counter of a run that returned; `none` for a run that
did not return. -/
def Outcome.observe : Outcome → Option (CPU × Nat)
  | Outcome.returned cpu c _ => some (cpu, c)
  | _ => none

/-! ## States inside a run -/

/-- The state at the loop test of `CPU::Execute` after exactly `n` iterations of the loop:
`none` when the loop has exited before that, or when one of the iterations made an access
outside `Data`. -/
def CPU.ExecuteIter : Nat → CPU → Nat → Mem → Option (CPU × Nat × Mem)
  | 0, cpu, Cycles, memory => some (cpu, Cycles, memory)
  | n + 1, cpu, Cycles, memory =>
    if Cycles > 0 then
      match cpu.ExecuteStep Cycles memory with
      | some (cpu, Cycles, memory) => CPU.ExecuteIter n cpu Cycles memory
      | none => none
    else none

/-- The state of the run of `main` at the loop test after exactly `n` iterations. -/
def mainIter (cpu : CPU) (mem : Mem) (n : Nat) : Option (CPU × Nat × Mem) :=
  let (cpu, mem) := cpu.Reset mem
  match loadProgram mem with
  | some mem => cpu.ExecuteIter n 20 mem
  | none => none

/-- A zero-filled memory with `JSR 0x0000` poked at the reset address `0xFFFC` and again at
`0x0000`: two pokes of the opcode byte `0x20`, the operand bytes being the zeros left by
`Reset`. -/
def jsrLoopImage : Mem := Mem.ofList [(0xFFFC, 0x20), (0x0000, 0x20)]

/-- A zero-filled memory with the bytes `0xA5 0x10` poked at `0xFFFC` (on the 6502, `LDA 0x10`)
and the byte `0x33` in cell `0x0010`. -/
def realZpImage : Mem := Mem.ofList [(0xFFFC, 0xA5), (0xFFFD, 0x10), (0x0010, 0x33)]

/-- A zero-filled memory with the bytes `0x45 0x10` poked at `0xFFFC` (the code's `INS_LDA_ZP`
with operand `0x10`) and the byte `0x80` in cell `0x0010`. -/
def zpImage : Mem := Mem.ofList [(0xFFFC, 0x45), (0xFFFD, 0x10), (0x0010, 0x80)]

/-- A zero-filled memory with `LDA 0x0F,X` poked at `0xFFFC` and the byte `0x80` in cell
`0x0010`. -/
def zpxImage2 : Mem := Mem.ofList [(0xFFFC, 0xB5), (0xFFFD, 0x0F), (0x0010, 0x80)]

/-! ## Basic facts about the memory operations -/

theorem Mem.initLoop_apply (n : Nat) (d : Nat → Nat) (a : Nat) :
    Mem.initLoop n d a = if a < n then 0 else d a := by
  induction n with
  | zero => simp [Mem.initLoop]
  | succ k ih =>
    simp only [Mem.initLoop, ih]
    by_cases h1 : a = k
    · subst h1; simp
    · by_cases h2 : a < k
      · have h3 : a < k + 1 := by omega
        simp [h1, h2, h3]
      · have h3 : ¬ a < k + 1 := by omega
        simp [h1, h2, h3]

theorem Mem.Initialize_Data (m : Mem) (a : Nat) :
    m.Initialize.Data a = if a < MAX_MEM then 0 else m.Data a := by
  simp [Mem.Initialize, Mem.initLoop_apply]

theorem Mem.read_of_lt (m : Mem) (a : Nat) (h : a < MAX_MEM) :
    m.read a = some (m.Data a) := by
  simp [Mem.read, h]

theorem Mem.write_of_lt (m : Mem) (a v : Nat) (h : a < MAX_MEM) :
    m.write a v = some ⟨fun i => if i = a then v else m.Data i⟩ := by
  simp [Mem.write, h]

theorem decU32_of_pos (c : Nat) (h0 : 0 < c) (h : c < 4294967296) : decU32 c = c - 1 := by
  unfold decU32; omega

theorem decU32_zero : decU32 0 = 4294967295 := by
  decide

theorem decU32_lt (c : Nat) : decU32 c < 4294967296 := by
  unfold decU32; omega

theorem decU32_twice (c : Nat) (h0 : 2 ≤ c) (h : c < 4294967296) :
    decU32 (decU32 c) = c - 2 := by
  unfold decU32; omega

/-! ## Bytes and words -/

set_option maxRecDepth 100000 in
theorem bit7_of_byte : ∀ a, a < 256 → decide ((a &&& 0b10000000) > 0) = a.testBit 7 := by
  decide

theorem FetchByte_eq (cpu : CPU) (c : Nat) (mem : Mem) (h : cpu.PC < 65536) :
    cpu.FetchByte c mem =
      some (mem.Data cpu.PC, { cpu with PC := (cpu.PC + 1) % 65536 }, decU32 c) := by
  have h2 : cpu.PC < MAX_MEM := h
  simp [CPU.FetchByte, Mem.read_of_lt _ _ h2, toWord]

theorem FetchWord_eq (cpu : CPU) (c : Nat) (mem : Mem) (h : cpu.PC < 65536) :
    cpu.FetchWord c mem =
      some (toWord (mem.Data cpu.PC ||| (mem.Data ((cpu.PC + 1) % 65536) <<< 8)),
            { cpu with PC := (cpu.PC + 2) % 65536 }, decU32 (decU32 c)) := by
  have h2 : cpu.PC < MAX_MEM := h
  have h3 : (cpu.PC + 1) % 65536 < MAX_MEM := by unfold MAX_MEM; omega
  have hpc : ((cpu.PC + 1) % 65536 + 1) % 65536 = (cpu.PC + 2) % 65536 := by omega
  simp [CPU.FetchWord, Mem.read_of_lt _ _ h2, Mem.read_of_lt _ _ h3, toWord, hpc]

theorem ReadByte_eq (cpu : CPU) (c a : Nat) (mem : Mem) (h : a < 65536) :
    cpu.ReadByte c a mem = some (mem.Data a, decU32 c) := by
  have h2 : a < MAX_MEM := h
  simp [CPU.ReadByte, Mem.read_of_lt _ _ h2]

theorem WriteWord_eq (mem : Mem) (v a c : Nat) (h : a + 1 < 65536) :
    mem.WriteWord v a c =
      some (⟨fun i => if i = a + 1 then toByte (v >>> 8)
                      else if i = a then toByte (v &&& 0xff) else mem.Data i⟩,
            decU32 (decU32 c)) := by
  have h1 : a < MAX_MEM := by unfold MAX_MEM; omega
  have h2 : a + 1 < MAX_MEM := by unfold MAX_MEM; omega
  simp [Mem.WriteWord, Mem.write_of_lt _ _ _ h1, Mem.write_of_lt _ _ _ h2]

theorem WriteWord_top (mem : Mem) (v c : Nat) : mem.WriteWord v 0xFFFF c = none := by
  simp [Mem.WriteWord, Mem.write, MAX_MEM]

theorem ExecuteStep_LDA_IM (cpu : CPU) (c : Nat) (mem : Mem) (hPC : cpu.PC < 65536)
    (hop : mem.Data cpu.PC = INS_LDA_IM) :
    cpu.ExecuteStep c mem =
      some (CPU.LDASetStatus { cpu with PC := (cpu.PC + 2) % 65536,
                                        A := mem.Data ((cpu.PC + 1) % 65536) },
            decU32 (decU32 c), mem) := by
  have hpc : ((cpu.PC + 1) % 65536 + 1) % 65536 = (cpu.PC + 2) % 65536 := by omega
  have hlt : (cpu.PC + 1) % 65536 < 65536 := by omega
  unfold CPU.ExecuteStep
  rw [FetchByte_eq _ _ _ hPC]
  simp only [Option.bind_eq_bind, Option.some_bind, hop, if_true]
  rw [FetchByte_eq _ _ _ hlt]
  simp only [Option.some_bind, hpc]

theorem ExecuteStep_LDA_ZP (cpu : CPU) (c : Nat) (mem : Mem) (hPC : cpu.PC < 65536)
    (hop : mem.Data cpu.PC = INS_LDA_ZP) (hzp : mem.Data ((cpu.PC + 1) % 65536) < 65536) :
    cpu.ExecuteStep c mem =
      some (CPU.LDASetStatus { cpu with PC := (cpu.PC + 2) % 65536,
                                        A := mem.Data (mem.Data ((cpu.PC + 1) % 65536)) },
            decU32 (decU32 (decU32 c)), mem) := by
  have hpc : ((cpu.PC + 1) % 65536 + 1) % 65536 = (cpu.PC + 2) % 65536 := by omega
  have hlt : (cpu.PC + 1) % 65536 < 65536 := by omega
  have hne : ¬ (INS_LDA_ZP = INS_LDA_IM) := by decide
  unfold CPU.ExecuteStep
  rw [FetchByte_eq _ _ _ hPC]
  simp only [Option.bind_eq_bind, Option.some_bind, hop, if_true, hne, if_false]
  rw [FetchByte_eq _ _ _ hlt]
  simp only [Option.some_bind]
  rw [ReadByte_eq _ _ _ _ hzp]
  simp only [Option.some_bind, hpc]

theorem ExecuteStep_LDA_ZPX (cpu : CPU) (c : Nat) (mem : Mem) (hPC : cpu.PC < 65536)
    (hop : mem.Data cpu.PC = INS_LDA_ZPX) :
    cpu.ExecuteStep c mem =
      some (CPU.LDASetStatus
              { cpu with PC := (cpu.PC + 2) % 65536,
                         A := mem.Data ((mem.Data ((cpu.PC + 1) % 65536) + cpu.X) % 256) },
            decU32 (decU32 (decU32 (decU32 c))), mem) := by
  have hpc : ((cpu.PC + 1) % 65536 + 1) % 65536 = (cpu.PC + 2) % 65536 := by omega
  have hlt : (cpu.PC + 1) % 65536 < 65536 := by omega
  have hne1 : ¬ (INS_LDA_ZPX = INS_LDA_IM) := by decide
  have hne2 : ¬ (INS_LDA_ZPX = INS_LDA_ZP) := by decide
  have ha : (mem.Data ((cpu.PC + 1) % 65536) + cpu.X) % 256 < 65536 := by omega
  unfold CPU.ExecuteStep
  rw [FetchByte_eq _ _ _ hPC]
  simp only [Option.bind_eq_bind, Option.some_bind, hop, if_true, hne1, hne2, if_false]
  rw [FetchByte_eq _ _ _ hlt]
  simp only [Option.some_bind, toByte]
  rw [ReadByte_eq _ _ _ _ ha]
  simp only [Option.some_bind, hpc]

theorem ExecuteStep_JSR (cpu : CPU) (c : Nat) (mem : Mem) (hPC : cpu.PC < 65536)
    (hSP : cpu.SP + 1 < 65536) (hop : mem.Data cpu.PC = INS_JSR) :
    cpu.ExecuteStep c mem =
      some ({ cpu with
                PC := toWord (mem.Data ((cpu.PC + 1) % 65536) |||
                              (mem.Data ((cpu.PC + 2) % 65536) <<< 8)),
                SP := (cpu.SP + 1) % 65536 },
            decU32 (decU32 (decU32 (decU32 (decU32 (decU32 c))))),
            ⟨fun i => if i = cpu.SP + 1 then toByte (toWord ((cpu.PC + 3) % 65536 + 65536 - 1) >>> 8)
                      else if i = cpu.SP then
                        toByte (toWord ((cpu.PC + 3) % 65536 + 65536 - 1) &&& 0xff)
                      else mem.Data i⟩) := by
  have hpc2 : ((cpu.PC + 1) % 65536 + 1) % 65536 = (cpu.PC + 2) % 65536 := by omega
  have hpc3 : ((cpu.PC + 1) % 65536 + 2) % 65536 = (cpu.PC + 3) % 65536 := by omega
  have hlt : (cpu.PC + 1) % 65536 < 65536 := by omega
  have hne1 : ¬ (INS_JSR = INS_LDA_IM) := by decide
  have hne2 : ¬ (INS_JSR = INS_LDA_ZP) := by decide
  have hne3 : ¬ (INS_JSR = INS_LDA_ZPX) := by decide
  unfold CPU.ExecuteStep
  rw [FetchByte_eq _ _ _ hPC]
  simp only [Option.bind_eq_bind, Option.some_bind, hop, if_true, hne1, hne2, hne3, if_false]
  rw [FetchWord_eq _ _ _ hlt]
  simp only [Option.some_bind]
  rw [WriteWord_eq _ _ _ _ hSP]
  simp only [Option.some_bind, hpc2, hpc3, toWord]

theorem ExecuteStep_JSR_top (cpu : CPU) (c : Nat) (mem : Mem) (hPC : cpu.PC < 65536)
    (hSP : cpu.SP = 0xFFFF) (hop : mem.Data cpu.PC = INS_JSR) :
    cpu.ExecuteStep c mem = none := by
  have hlt : (cpu.PC + 1) % 65536 < 65536 := by omega
  have hne1 : ¬ (INS_JSR = INS_LDA_IM) := by decide
  have hne2 : ¬ (INS_JSR = INS_LDA_ZP) := by decide
  have hne3 : ¬ (INS_JSR = INS_LDA_ZPX) := by decide
  unfold CPU.ExecuteStep
  rw [FetchByte_eq _ _ _ hPC]
  simp only [Option.bind_eq_bind, Option.some_bind, hop, if_true, hne1, hne2, hne3, if_false]
  rw [FetchWord_eq _ _ _ hlt]
  simp only [Option.some_bind, hSP]
  rw [WriteWord_top]
  rfl

theorem ExecuteStep_default (cpu : CPU) (c : Nat) (mem : Mem) (hPC : cpu.PC < 65536)
    (h1 : mem.Data cpu.PC ≠ INS_LDA_IM) (h2 : mem.Data cpu.PC ≠ INS_LDA_ZP)
    (h3 : mem.Data cpu.PC ≠ INS_LDA_ZPX) (h4 : mem.Data cpu.PC ≠ INS_JSR) :
    cpu.ExecuteStep c mem = some ({ cpu with PC := (cpu.PC + 1) % 65536 }, decU32 c, mem) := by
  unfold CPU.ExecuteStep
  rw [FetchByte_eq _ _ _ hPC]
  simp only [Option.bind_eq_bind, Option.some_bind, h1, h2, h3, h4, if_false]

/-! ## Reset -/

/-- The general behaviour of `Reset` on the `Z` field: it is left as it was. -/
theorem Reset_Z_unchanged (cpu : CPU) (mem : Mem) : (cpu.Reset mem).1.Z = cpu.Z := by
  simp [CPU.Reset]

/-- C1 (code evaluated at the failing input): started from a processor whose `Z` field is set,
`Reset` returns with `Z` still set, while the other six status fields are cleared. The claim
that all seven flags are 0 after `Reset` does not hold of the code. -/
theorem Reset_leaves_Z_set :
    (CPU.Reset ⟨0, 0, 0, 0, 0, false, true, false, false, false, false, false⟩
      ⟨fun _ => 0⟩).1 =
    ⟨0xFFFC, 0x0100, 0, 0, 0, false, true, false, false, false, false, false⟩ := by
  rfl

/-- C2: for every prior processor state and memory contents, after `Reset` we have
`PC = 0xFFFC`, `SP = 0x0100`, `A = X = Y = 0`, and each of the 65536 cells of `Data` reads
as 0. -/
theorem Reset_registers_and_memory (cpu : CPU) (mem : Mem) :
    (cpu.Reset mem).1.PC = 0xFFFC ∧ (cpu.Reset mem).1.SP = 0x0100 ∧
    (cpu.Reset mem).1.A = 0 ∧ (cpu.Reset mem).1.X = 0 ∧ (cpu.Reset mem).1.Y = 0 ∧
    MAX_MEM = 65536 ∧
    ∀ a, a < MAX_MEM → (cpu.Reset mem).2.Data a = 0 ∧ (cpu.Reset mem).2.read a = some 0 := by
  refine ⟨rfl, rfl, rfl, rfl, rfl, rfl, ?_⟩
  intro a ha
  have h : (cpu.Reset mem).2.Data a = 0 := by
    simp [CPU.Reset, Mem.Initialize_Data, ha]
  exact ⟨h, by rw [Mem.read_of_lt _ _ ha, h]⟩

/-- Witness for C2 at a processor with every register and flag set and a memory full of
`0xEA`: the last cell reads 0 after `Reset`. -/
theorem Reset_registers_and_memory_witness :
    (CPU.Reset ⟨0x1234, 0x01FF, 7, 8, 9, true, true, true, true, true, true, true⟩
      ⟨fun _ => 0xEA⟩).2.read 0xFFFF = some 0 :=
  ((Reset_registers_and_memory
      ⟨0x1234, 0x01FF, 7, 8, 9, true, true, true, true, true, true, true⟩
      ⟨fun _ => 0xEA⟩).2.2.2.2.2.2 0xFFFF (by decide)).2

theorem Mem.ofList_WF (l : List (Nat × Nat)) (h : ∀ p ∈ l, p.2 < 256) : (Mem.ofList l).WF := by
  intro a _
  show (l.lookup a).getD 0 < 256
  induction l with
  | nil => simp
  | cons p t ih =>
    obtain ⟨k, v⟩ := p
    have hv : v < 256 := h (k, v) (List.mem_cons_self _ _)
    have ht : ∀ p ∈ t, p.2 < 256 := fun p hp => h p (List.mem_cons_of_mem _ hp)
    by_cases hk : a = k
    · subst hk; simpa [List.lookup] using hv
    · have : (a == k) = false := by simpa using hk
      simpa [List.lookup, this] using ih ht

/-! ## Single instructions -/

/-- C3: in every well-formed state with at least 2 cycles remaining whose byte at `PC` is
`INS_LDA_IM` and whose following byte is `V`, one iteration of the `Execute` loop succeeds,
leaves memory as it was, sets `A = V`, sets `Z` exactly when `V = 0`, sets `N` to bit 7 of `V`,
lowers the cycle counter by exactly 2 and moves `PC` to `(PC + 2) mod 65536`. -/
theorem LDA_IM_step (cpu : CPU) (c : Nat) (mem : Mem) (V : Nat)
    (hcpu : cpu.WF) (hmem : mem.WF) (hc : 2 ≤ c) (hc32 : c < 4294967296)
    (hop : mem.Data cpu.PC = INS_LDA_IM) (hV : mem.Data ((cpu.PC + 1) % 65536) = V) :
    ∃ cpu' c', cpu.ExecuteStep c mem = some (cpu', c', mem) ∧
      cpu'.A = V ∧ (cpu'.Z = true ↔ V = 0) ∧ cpu'.N = V.testBit 7 ∧
      c' + 2 = c ∧ cpu'.PC = (cpu.PC + 2) % 65536 := by
  obtain ⟨hPC, -⟩ := hcpu
  have hV256 : V < 256 := by
    rw [← hV]; exact hmem _ (by unfold MAX_MEM; omega)
  have hd : decU32 (decU32 c) + 2 = c := by rw [decU32_twice c hc hc32]; omega
  rw [ExecuteStep_LDA_IM cpu c mem hPC hop, hV]
  refine ⟨_, _, rfl, rfl, ?_, bit7_of_byte V hV256, hd, rfl⟩
  simp [CPU.LDASetStatus]

/-- Witness for C3: `LDA #0x80` at `0xFFFC` with exactly 2 cycles remaining. -/
theorem LDA_IM_step_witness :
    ∃ cpu' c', CPU.ExecuteStep (CPU.zeroed 0xFFFC 0x0100 0) 2
        (Mem.ofList [(0xFFFC, 0xA9), (0xFFFD, 0x80)]) =
          some (cpu', c', Mem.ofList [(0xFFFC, 0xA9), (0xFFFD, 0x80)]) ∧
      cpu'.A = 0x80 ∧ (cpu'.Z = true ↔ 0x80 = 0) ∧ cpu'.N = Nat.testBit 0x80 7 ∧
      c' + 2 = 2 ∧ cpu'.PC = (0xFFFC + 2) % 65536 :=
  LDA_IM_step (CPU.zeroed 0xFFFC 0x0100 0) 2 (Mem.ofList [(0xFFFC, 0xA9), (0xFFFD, 0x80)]) 0x80
    ⟨by decide, by decide, by decide, by decide, by decide⟩
    (Mem.ofList_WF _ (by decide)) (by decide) (by decide) (by decide) (by decide)

/-- The general behaviour of the `INS_JSR` case on the stack pointer: where the iteration is
defined, `SP` goes up by one, while two cells (`SP` and `SP + 1`) are written. -/
theorem JSR_SP_succ (cpu : CPU) (c : Nat) (mem : Mem) (hPC : cpu.PC < 65536)
    (hSP : cpu.SP + 1 < 65536) (hop : mem.Data cpu.PC = INS_JSR) :
    ∃ cpu' c' mem', cpu.ExecuteStep c mem = some (cpu', c', mem') ∧ cpu'.SP = cpu.SP + 1 := by
  rw [ExecuteStep_JSR cpu c mem hPC hSP hop]
  exact ⟨_, _, _, rfl, Nat.mod_eq_of_lt hSP⟩

/-- C5 (code evaluated at the failing input): the first instruction of the program built by
`main`, `JSR 0xAA42` at `0xFFFC` with `SP = 0x0100`. The iteration writes the two bytes
`0xFE`, `0xFF` of the return address to the cells `0x0100` and `0x0101`, and leaves
`SP = 0x0101`: the stack pointer has moved by 1, which is not the 2 bytes pushed. -/
theorem JSR_moves_SP_by_one :
    ∃ cpu' c' mem', CPU.ExecuteStep (CPU.zeroed 0xFFFC 0x0100 0) 20 mainImage =
        some (cpu', c', mem') ∧
      mainImage.Data 0x0100 = 0 ∧ mainImage.Data 0x0101 = 0 ∧
      mem'.Data 0x0100 = 0xFE ∧ mem'.Data 0x0101 = 0xFF ∧
      cpu'.SP = 0x0101 ∧ cpu'.SP ≠ 0x0100 + 2 := by
  rw [ExecuteStep_JSR _ _ _ (by decide) (by decide) (by decide)]
  exact ⟨_, _, _, rfl, by decide, by decide, by decide, by decide, by decide, by decide⟩

/-- C6: in every well-formed state whose byte at `PC` is `INS_LDA_ZPX`, followed by the base byte
`b`, one iteration of the `Execute` loop succeeds, leaves memory as it was, and loads `A` from
the cell at `(b + X) mod 256`, an address below `0x100` (for `X = 0xFF`, `b = 0x80` it is
`0x7F`). The cycle counter is decremented four times (opcode fetch, operand fetch, index
addition, read): it ends at `(c - 4) mod 2^32`, exactly 4 lower when at least 4 cycles remain.
`PC` moves to `(PC + 2) mod 65536`. -/
theorem LDA_ZPX_step (cpu : CPU) (c : Nat) (mem : Mem) (b : Nat)
    (hcpu : cpu.WF) (hc32 : c < 4294967296)
    (hop : mem.Data cpu.PC = INS_LDA_ZPX) (hb : mem.Data ((cpu.PC + 1) % 65536) = b) :
    ∃ cpu' c', cpu.ExecuteStep c mem = some (cpu', c', mem) ∧
      cpu'.A = mem.Data ((b + cpu.X) % 256) ∧ (b + cpu.X) % 256 < 0x100 ∧
      (cpu.X = 0xFF → b = 0x80 → cpu'.A = mem.Data 0x7F) ∧
      c' = decU32 (decU32 (decU32 (decU32 c))) ∧
      c' = (c + 4294967296 - 4) % 4294967296 ∧ (4 ≤ c → c' + 4 = c) ∧
      cpu'.PC = (cpu.PC + 2) % 65536 := by
  obtain ⟨hPC, -⟩ := hcpu
  have hcyc : decU32 (decU32 (decU32 (decU32 c))) = (c + 4294967296 - 4) % 4294967296 := by
    unfold decU32; omega
  rw [ExecuteStep_LDA_ZPX cpu c mem hPC hop, hb]
  refine ⟨_, _, rfl, rfl, by omega, ?_, rfl, hcyc, ?_, rfl⟩
  · intro hX hb80
    show mem.Data ((b + cpu.X) % 256) = mem.Data 0x7F
    rw [hX, hb80]
  · intro h4
    rw [hcyc]; omega

/-- Witness for C6: `LDA 0x80,X` at `0xFFFC` with `X = 0xFF`, 4 cycles remaining, and the byte
`0x33` in cell `0x007F`. -/
theorem LDA_ZPX_step_witness :
    ∃ cpu' c', CPU.ExecuteStep (CPU.zeroed 0xFFFC 0x0100 0xFF) 4 zpxImage =
        some (cpu', c', zpxImage) ∧
      cpu'.A = zpxImage.Data ((0x80 + 0xFF) % 256) ∧ (0x80 + 0xFF) % 256 < 0x100 ∧
      (0xFF = 0xFF → 0x80 = 0x80 → cpu'.A = zpxImage.Data 0x7F) ∧
      c' = decU32 (decU32 (decU32 (decU32 4))) ∧
      c' = (4 + 4294967296 - 4) % 4294967296 ∧ (4 ≤ 4 → c' + 4 = 4) ∧
      cpu'.PC = (0xFFFC + 2) % 65536 :=
  LDA_ZPX_step (CPU.zeroed 0xFFFC 0x0100 0xFF) 4 zpxImage 0x80
    ⟨by decide, by decide, by decide, by decide, by decide⟩ (by decide) (by decide) (by decide)

/-! ## The loop -/

theorem Execute_succ_of_pos (fuel : Nat) (cpu : CPU) (c : Nat) (mem : Mem) (h : 0 < c) :
    cpu.Execute (fuel + 1) c mem =
      match cpu.ExecuteStep c mem with
      | some (cpu1, c1, mem1) => CPU.Execute fuel cpu1 c1 mem1
      | none => Outcome.fault := by
  simp [CPU.Execute, h]

theorem Execute_zero_cycles (fuel : Nat) (cpu : CPU) (mem : Mem) :
    cpu.Execute fuel 0 mem = Outcome.returned cpu 0 mem := by
  cases fuel <;> simp [CPU.Execute]

/-- C7: in every well-formed state inside the loop (`Cycles > 0`) whose byte at `PC` is none of
`0xA9`, `0x45`, `0xB5`, `0x20`, one iteration of the `Execute` loop succeeds and changes
nothing but `PC` and the cycle counter: `A`, `X`, `Y`, `SP`, the seven flags and memory are as
before, `PC` is `(PC + 1) mod 65536`, and the counter is exactly 1 lower. The loop then
continues from that state, and when the counter is still positive it runs the next iteration
there. -/
theorem unknown_opcode_step (cpu : CPU) (c : Nat) (mem : Mem)
    (hcpu : cpu.WF) (hc : 0 < c) (hc32 : c < 4294967296)
    (h1 : mem.Data cpu.PC ≠ 0xA9) (h2 : mem.Data cpu.PC ≠ 0x45)
    (h3 : mem.Data cpu.PC ≠ 0xB5) (h4 : mem.Data cpu.PC ≠ 0x20) :
    ∃ cpu' c', cpu.ExecuteStep c mem = some (cpu', c', mem) ∧
      cpu' = { cpu with PC := (cpu.PC + 1) % 65536 } ∧
      cpu'.A = cpu.A ∧ cpu'.X = cpu.X ∧ cpu'.Y = cpu.Y ∧ cpu'.SP = cpu.SP ∧
      cpu'.C = cpu.C ∧ cpu'.Z = cpu.Z ∧ cpu'.I = cpu.I ∧ cpu'.D = cpu.D ∧
      cpu'.B = cpu.B ∧ cpu'.V = cpu.V ∧ cpu'.N = cpu.N ∧
      c' + 1 = c ∧
      (∀ fuel, cpu.Execute (fuel + 1) c mem = cpu'.Execute fuel c' mem) ∧
      (0 < c' → ∀ fuel, cpu.Execute (fuel + 2) c mem =
        match cpu'.ExecuteStep c' mem with
        | some (cpu2, c2, mem2) => CPU.Execute fuel cpu2 c2 mem2
        | none => Outcome.fault) := by
  obtain ⟨hPC, -⟩ := hcpu
  have hstep := ExecuteStep_default cpu c mem hPC h1 h2 h3 h4
  have hloop : ∀ fuel, cpu.Execute (fuel + 1) c mem =
      CPU.Execute fuel { cpu with PC := (cpu.PC + 1) % 65536 } (decU32 c) mem := by
    intro fuel
    rw [Execute_succ_of_pos fuel cpu c mem hc, hstep]
  refine ⟨_, _, hstep, rfl, rfl, rfl, rfl, rfl, rfl, rfl, rfl, rfl, rfl, rfl, rfl, ?_, hloop, ?_⟩
  · rw [decU32_of_pos c hc hc32]; omega
  · intro hpos fuel
    rw [hloop (fuel + 1), Execute_succ_of_pos fuel _ _ mem hpos]

/-- Witness for C7: opcode byte `0x00` at `0x1000` with 2 cycles remaining. -/
theorem unknown_opcode_step_witness :
    ∃ cpu' c', CPU.ExecuteStep (CPU.zeroed 0x1000 0x0100 0) 2 ldaImage =
        some (cpu', c', ldaImage) ∧
      cpu' = { CPU.zeroed 0x1000 0x0100 0 with PC := (0x1000 + 1) % 65536 } ∧
      cpu'.A = 0 ∧ cpu'.X = 0 ∧ cpu'.Y = 0 ∧ cpu'.SP = 0x0100 ∧
      cpu'.C = false ∧ cpu'.Z = false ∧ cpu'.I = false ∧ cpu'.D = false ∧
      cpu'.B = false ∧ cpu'.V = false ∧ cpu'.N = false ∧
      c' + 1 = 2 ∧
      (∀ fuel, CPU.Execute (fuel + 1) (CPU.zeroed 0x1000 0x0100 0) 2 ldaImage =
        cpu'.Execute fuel c' ldaImage) ∧
      (0 < c' → ∀ fuel, CPU.Execute (fuel + 2) (CPU.zeroed 0x1000 0x0100 0) 2 ldaImage =
        match cpu'.ExecuteStep c' ldaImage with
        | some (cpu2, c2, mem2) => CPU.Execute fuel cpu2 c2 mem2
        | none => Outcome.fault) :=
  unknown_opcode_step (CPU.zeroed 0x1000 0x0100 0) 2 ldaImage
    ⟨by decide, by decide, by decide, by decide, by decide⟩
    (by decide) (by decide) (by decide) (by decide) (by decide) (by decide)

/-! ## Runs depend only on the cells of the array -/

theorem Mem.agree_refl (m : Mem) : Mem.agree m m := fun _ _ => rfl

theorem Mem.read_agree (m1 m2 : Mem) (h : Mem.agree m1 m2) (a : Nat) : m1.read a = m2.read a := by
  unfold Mem.read
  by_cases ha : a < MAX_MEM
  · simp [ha, h a ha]
  · simp [ha]

theorem Mem.write_agree (m1 m2 : Mem) (h : Mem.agree m1 m2) (a v : Nat) :
    (m1.write a v = none ∧ m2.write a v = none) ∨
    ∃ m1' m2', m1.write a v = some m1' ∧ m2.write a v = some m2' ∧ Mem.agree m1' m2' := by
  by_cases ha : a < MAX_MEM
  · right
    refine ⟨_, _, Mem.write_of_lt m1 a v ha, Mem.write_of_lt m2 a v ha, ?_⟩
    intro i hi
    by_cases e : i = a
    · simp [e]
    · simp [e, h i hi]
  · left
    simp [Mem.write, ha]

theorem Mem.WriteWord_agree (m1 m2 : Mem) (h : Mem.agree m1 m2) (v a c : Nat) :
    (m1.WriteWord v a c = none ∧ m2.WriteWord v a c = none) ∨
    ∃ m1' m2' c', m1.WriteWord v a c = some (m1', c') ∧ m2.WriteWord v a c = some (m2', c') ∧
      Mem.agree m1' m2' := by
  unfold Mem.WriteWord
  rcases Mem.write_agree m1 m2 h a (toByte (v &&& 0xff)) with ⟨e1, e2⟩ | ⟨n1, n2, e1, e2, hn⟩
  · left; simp [e1, e2]
  · rcases Mem.write_agree n1 n2 hn (a + 1) (toByte (v >>> 8)) with ⟨f1, f2⟩ | ⟨k1, k2, f1, f2, hk⟩
    · left; simp [e1, e2, f1, f2]
    · right
      exact ⟨k1, k2, decU32 (decU32 c), by simp [e1, f1], by simp [e2, f2], hk⟩

theorem ExecuteStep_agree (cpu : CPU) (c : Nat) (m1 m2 : Mem) (h : Mem.agree m1 m2) :
    (cpu.ExecuteStep c m1 = none ∧ cpu.ExecuteStep c m2 = none) ∨
    ∃ cpu' c' m1' m2', cpu.ExecuteStep c m1 = some (cpu', c', m1') ∧
      cpu.ExecuteStep c m2 = some (cpu', c', m2') ∧ Mem.agree m1' m2' := by
  have hfb : ∀ (cpu : CPU) (c : Nat), cpu.FetchByte c m1 = cpu.FetchByte c m2 := by
    intro cpu c; simp [CPU.FetchByte, Mem.read_agree m1 m2 h]
  have hfw : ∀ (cpu : CPU) (c : Nat), cpu.FetchWord c m1 = cpu.FetchWord c m2 := by
    intro cpu c; simp [CPU.FetchWord, Mem.read_agree m1 m2 h]
  have hrb : ∀ (cpu : CPU) (c a : Nat), cpu.ReadByte c a m1 = cpu.ReadByte c a m2 := by
    intro cpu c a; simp [CPU.ReadByte, Mem.read_agree m1 m2 h]
  have n21 : ¬ (INS_LDA_ZP = INS_LDA_IM) := by decide
  have n31 : ¬ (INS_LDA_ZPX = INS_LDA_IM) := by decide
  have n32 : ¬ (INS_LDA_ZPX = INS_LDA_ZP) := by decide
  have n41 : ¬ (INS_JSR = INS_LDA_IM) := by decide
  have n42 : ¬ (INS_JSR = INS_LDA_ZP) := by decide
  have n43 : ¬ (INS_JSR = INS_LDA_ZPX) := by decide
  unfold CPU.ExecuteStep
  rw [hfb]
  cases cpu.FetchByte c m2 with
  | none => left; exact ⟨rfl, rfl⟩
  | some t =>
    obtain ⟨ins, cpu1, c1⟩ := t
    simp only [Option.bind_eq_bind, Option.some_bind]
    by_cases i1 : ins = INS_LDA_IM
    · subst i1
      simp only [if_true]
      rw [hfb]
      cases cpu1.FetchByte c1 m2 with
      | none => left; exact ⟨rfl, rfl⟩
      | some t2 => right; exact ⟨_, _, _, _, rfl, rfl, h⟩
    · by_cases i2 : ins = INS_LDA_ZP
      · subst i2
        simp only [n21, if_true, if_false]
        rw [hfb]
        cases cpu1.FetchByte c1 m2 with
        | none => left; exact ⟨rfl, rfl⟩
        | some t2 =>
          obtain ⟨zp, cpu2, c2⟩ := t2
          simp only [Option.some_bind]
          rw [hrb]
          cases cpu2.ReadByte c2 zp m2 with
          | none => left; exact ⟨rfl, rfl⟩
          | some t3 => right; exact ⟨_, _, _, _, rfl, rfl, h⟩
      · by_cases i3 : ins = INS_LDA_ZPX
        · subst i3
          simp only [n31, n32, if_true, if_false]
          rw [hfb]
          cases cpu1.FetchByte c1 m2 with
          | none => left; exact ⟨rfl, rfl⟩
          | some t2 =>
            obtain ⟨zp, cpu2, c2⟩ := t2
            simp only [Option.some_bind]
            rw [hrb]
            cases cpu2.ReadByte (decU32 c2) (toByte (zp + cpu2.X)) m2 with
            | none => left; exact ⟨rfl, rfl⟩
            | some t3 => right; exact ⟨_, _, _, _, rfl, rfl, h⟩
        · by_cases i4 : ins = INS_JSR
          · subst i4
            simp only [n41, n42, n43, if_true, if_false]
            rw [hfw]
            cases cpu1.FetchWord c1 m2 with
            | none => left; exact ⟨rfl, rfl⟩
            | some t2 =>
              obtain ⟨w, cpu2, c2⟩ := t2
              simp only [Option.some_bind]
              rcases Mem.WriteWord_agree m1 m2 h (toWord (cpu2.PC + 65536 - 1)) cpu2.SP c2 with
                ⟨e1, e2⟩ | ⟨n1, n2, c3, e1, e2, hn⟩
              · left; rw [e1, e2]; exact ⟨rfl, rfl⟩
              · right; rw [e1, e2]; exact ⟨_, _, _, _, rfl, rfl, hn⟩
          · right
            simp only [i1, i2, i3, i4, if_false]
            exact ⟨_, _, _, _, rfl, rfl, h⟩

theorem Execute_agree (fuel : Nat) : ∀ (cpu : CPU) (c : Nat) (m1 m2 : Mem), Mem.agree m1 m2 →
    Outcome.agree (cpu.Execute fuel c m1) (cpu.Execute fuel c m2) := by
  induction fuel with
  | zero =>
    intro cpu c m1 m2 h
    by_cases hc : 0 < c
    · simp [CPU.Execute, hc, Outcome.agree]
    · simp [CPU.Execute, hc, Outcome.agree, h]
  | succ n ih =>
    intro cpu c m1 m2 h
    by_cases hc : 0 < c
    · rw [Execute_succ_of_pos _ _ _ _ hc, Execute_succ_of_pos _ _ _ _ hc]
      rcases ExecuteStep_agree cpu c m1 m2 h with ⟨e1, e2⟩ | ⟨cpu', c', n1, n2, e1, e2, hn⟩
      · rw [e1, e2]; exact True.intro
      · rw [e1, e2]; exact ih cpu' c' n1 n2 hn
    · simp [CPU.Execute, hc, Outcome.agree, h]

theorem Outcome.agree_observe (o1 o2 : Outcome) (h : Outcome.agree o1 o2) (cpu : CPU) (c : Nat)
    (ho : o2.observe = some (cpu, c)) : ∃ m, o1 = Outcome.returned cpu c m := by
  cases o2 with
  | returned cpu2 c2 m2 =>
    cases o1 with
    | returned cpu1 c1 m1 =>
      obtain ⟨h1, h2, -⟩ := h
      simp only [Outcome.observe, Option.some.injEq, Prod.mk.injEq] at ho
      exact ⟨m1, by rw [h1, h2, ho.1, ho.2]⟩
    | fault => exact absurd h (by simp [Outcome.agree])
    | unfinished => exact absurd h (by simp [Outcome.agree])
  | fault => simp [Outcome.observe] at ho
  | unfinished => simp [Outcome.observe] at ho

theorem Mem.ofList_cons_ne (k v a : Nat) (t : List (Nat × Nat)) (h : a ≠ k) :
    (Mem.ofList ((k, v) :: t)).Data a = (Mem.ofList t).Data a := by
  have hb : (a == k) = false := by simpa using h
  simp [Mem.ofList, List.lookup, hb]

theorem Mem.ofList_nil (a : Nat) : (Mem.ofList []).Data a = 0 := rfl

theorem loadProgram_eq (m : Mem) :
    loadProgram m = some ⟨fun a =>
      if a = 0xAE16 then 5 else if a = 0xAE15 then INS_LDA_IM
      else if a = 0xAA44 then 0xAE else if a = 0xAA43 then 0x15
      else if a = 0xAA42 then INS_JSR else if a = 0xFFFE then 0xAA
      else if a = 0xFFFD then 0x42 else if a = 0xFFFC then INS_JSR else m.Data a⟩ := by
  unfold loadProgram
  simp only [Option.bind_eq_bind]
  rw [Mem.write_of_lt _ _ _ (by decide), Option.some_bind,
    Mem.write_of_lt _ _ _ (by decide), Option.some_bind,
    Mem.write_of_lt _ _ _ (by decide), Option.some_bind,
    Mem.write_of_lt _ _ _ (by decide), Option.some_bind,
    Mem.write_of_lt _ _ _ (by decide), Option.some_bind,
    Mem.write_of_lt _ _ _ (by decide), Option.some_bind,
    Mem.write_of_lt _ _ _ (by decide), Option.some_bind,
    Mem.write_of_lt _ _ _ (by decide), Option.some_bind]

theorem loadProgram_Initialize (mem : Mem) :
    ∃ M0, loadProgram mem.Initialize = some M0 ∧ Mem.agree M0 mainImage := by
  refine ⟨_, loadProgram_eq _, ?_⟩
  intro a ha
  simp only [Mem.Initialize_Data, ha, if_true]
  by_cases h1 : a = 0xAE16
  · subst h1; rfl
  by_cases h2 : a = 0xAE15
  · subst h2; rfl
  by_cases h3 : a = 0xAA44
  · subst h3; rfl
  by_cases h4 : a = 0xAA43
  · subst h4; rfl
  by_cases h5 : a = 0xAA42
  · subst h5; rfl
  by_cases h6 : a = 0xFFFE
  · subst h6; rfl
  by_cases h7 : a = 0xFFFD
  · subst h7; rfl
  by_cases h8 : a = 0xFFFC
  · subst h8; rfl
  rw [mainImage, Mem.ofList_cons_ne _ _ _ _ h8, Mem.ofList_cons_ne _ _ _ _ h7,
    Mem.ofList_cons_ne _ _ _ _ h6, Mem.ofList_cons_ne _ _ _ _ h5, Mem.ofList_cons_ne _ _ _ _ h4,
    Mem.ofList_cons_ne _ _ _ _ h3, Mem.ofList_cons_ne _ _ _ _ h2, Mem.ofList_cons_ne _ _ _ _ h1,
    Mem.ofList_nil]
  simp [h1, h2, h3, h4, h5, h6, h7, h8]

theorem Reset_cpu (cpu : CPU) (mem : Mem) :
    (cpu.Reset mem).1 = ⟨0xFFFC, 0x0100, 0, 0, 0, false, cpu.Z, false, false, false, false, false⟩ :=
  rfl

theorem mainImage_run (z : Bool) :
    (CPU.Execute 9 ⟨0xFFFC, 0x0100, 0, 0, 0, false, z, false, false, false, false, false⟩ 20
      mainImage).observe =
    some (⟨0xAE1D, 0x0102, 5, 0, 0, false, false, false, false, false, false, false⟩, 0) := by
  cases z <;> rfl

theorem main_eq_Execute (cpu : CPU) (mem : Mem) :
    ∃ M0, Mem.agree M0 mainImage ∧ ∀ fuel, main cpu mem fuel =
      CPU.Execute fuel ⟨0xFFFC, 0x0100, 0, 0, 0, false, cpu.Z, false, false, false, false, false⟩
        20 M0 := by
  obtain ⟨M0, hload, hagree⟩ := loadProgram_Initialize mem
  refine ⟨M0, hagree, ?_⟩
  intro fuel
  show (match loadProgram mem.Initialize with
    | some m => CPU.Execute fuel (cpu.Reset mem).1 20 m
    | none => Outcome.fault) = _
  rw [hload, Reset_cpu]

theorem main_run (cpu : CPU) (mem : Mem) :
    ∃ mem', main cpu mem 9 = Outcome.returned
      ⟨0xAE1D, 0x0102, 5, 0, 0, false, false, false, false, false, false, false⟩ 0 mem' := by
  obtain ⟨M0, hagree, hmain⟩ := main_eq_Execute cpu mem
  rw [hmain]
  exact Outcome.agree_observe _ _ (Execute_agree 9 _ 20 M0 mainImage hagree) _ _
    (mainImage_run cpu.Z)

theorem Execute_fuel_mono (fuel k : Nat) : ∀ (cpu : CPU) (c : Nat) (mem : Mem) (r : Outcome),
    r ≠ Outcome.unfinished → cpu.Execute fuel c mem = r → cpu.Execute (fuel + k) c mem = r := by
  induction fuel with
  | zero =>
    intro cpu c mem r hr h
    by_cases hc : 0 < c
    · simp [CPU.Execute, hc] at h
      exact absurd h.symm hr
    · have h0 : c = 0 := by omega
      subst h0
      rw [Execute_zero_cycles] at h ⊢
      exact h
  | succ n ih =>
    intro cpu c mem r hr h
    by_cases hc : 0 < c
    · have e : n + 1 + k = (n + k) + 1 := by omega
      rw [e, Execute_succ_of_pos _ _ _ _ hc]
      rw [Execute_succ_of_pos _ _ _ _ hc] at h
      cases hs : cpu.ExecuteStep c mem with
      | none => rw [hs] at h; exact h
      | some t =>
        obtain ⟨cpu1, c1, mem1⟩ := t
        rw [hs] at h
        exact ih cpu1 c1 mem1 r hr h
    · have h0 : c = 0 := by omega
      subst h0
      rw [Execute_zero_cycles] at h ⊢
      exact h

/-! ## Whole runs -/

/-- C10: whatever the prior contents of `cpu` and `mem`, the run built in `main` (`Reset`, the
eight pokes, `Execute` with a budget of 20) returns once the loop is given at least 9
iterations, and it returns with the accumulator `A` equal to 5. -/
theorem main_accumulator_is_five (cpu : CPU) (mem : Mem) (k : Nat) :
    ∃ cpu' c' mem', main cpu mem (9 + k) = Outcome.returned cpu' c' mem' ∧ cpu'.A = 5 := by
  obtain ⟨M0, -, hmain⟩ := main_eq_Execute cpu mem
  obtain ⟨mem', hrun⟩ := main_run cpu mem
  rw [hmain] at hrun
  refine ⟨⟨0xAE1D, 0x0102, 5, 0, 0, false, false, false, false, false, false, false⟩, 0, mem',
    ?_, rfl⟩
  rw [hmain]
  exact Execute_fuel_mono 9 k _ _ _ _ (fun h => Outcome.noConfusion h) hrun

/-- C8 (code evaluated at the failing input): `LDA #5` at `0xFFFC` with a budget of 1.
The instruction runs to completion (`A = 5`, `PC = 0xFFFE`), but the two decrements take the
`u32` counter from 1 through 0 to 4294967295, so the loop condition `Cycles > 0` holds again:
`Execute` has not returned after that one instruction, it fetches the byte at `0xFFFE` as the
next instruction and carries on from `PC = 0xFFFF` with 4294967294 cycles. -/
theorem budget_one_LDA_IM_runs_on :
    CPU.ExecuteStep (CPU.zeroed 0xFFFC 0x0100 0) 1 ldaImage =
      some (⟨0xFFFE, 0x0100, 5, 0, 0, false, false, false, false, false, false, false⟩,
        4294967295, ldaImage) ∧
    CPU.Execute 1 (CPU.zeroed 0xFFFC 0x0100 0) 1 ldaImage = Outcome.unfinished ∧
    CPU.ExecuteStep ⟨0xFFFE, 0x0100, 5, 0, 0, false, false, false, false, false, false, false⟩
        4294967295 ldaImage =
      some (⟨0xFFFF, 0x0100, 5, 0, 0, false, false, false, false, false, false, false⟩,
        4294967294, ldaImage) ∧
    ∀ fuel, CPU.Execute (fuel + 2) (CPU.zeroed 0xFFFC 0x0100 0) 1 ldaImage =
      CPU.Execute fuel ⟨0xFFFF, 0x0100, 5, 0, 0, false, false, false, false, false, false, false⟩
        4294967294 ldaImage := by
  have s1 : CPU.ExecuteStep (CPU.zeroed 0xFFFC 0x0100 0) 1 ldaImage =
      some (⟨0xFFFE, 0x0100, 5, 0, 0, false, false, false, false, false, false, false⟩,
        4294967295, ldaImage) := by
    rw [ExecuteStep_LDA_IM _ _ _ (by decide) (by decide)]
    rfl
  have s2 : CPU.ExecuteStep
      ⟨0xFFFE, 0x0100, 5, 0, 0, false, false, false, false, false, false, false⟩
        4294967295 ldaImage =
      some (⟨0xFFFF, 0x0100, 5, 0, 0, false, false, false, false, false, false, false⟩,
        4294967294, ldaImage) := by
    rw [ExecuteStep_default _ _ _ (by decide) (by decide) (by decide) (by decide) (by decide)]
    rfl
  refine ⟨s1, ?_, s2, ?_⟩
  · rw [Execute_succ_of_pos 0 _ _ _ (by decide), s1]
    rfl
  · intro fuel
    rw [Execute_succ_of_pos (fuel + 1) _ _ _ (by decide), s1]
    show CPU.Execute (fuel + 1) _ 4294967295 ldaImage = _
    rw [Execute_succ_of_pos fuel _ _ _ (by decide), s2]

theorem ldaImage_elsewhere (a : Nat) (h1 : a ≠ 0xFFFC) (h2 : a ≠ 0xFFFD) :
    ldaImage.Data a = 0 := by
  rw [ldaImage, Mem.ofList_cons_ne _ _ _ _ h1, Mem.ofList_cons_ne _ _ _ _ h2, Mem.ofList_nil]

theorem ldaImage_step (cpu : CPU) (c : Nat) (hPC : cpu.PC < 65536) (hc : c < 4294967296)
    (hinv : (c + cpu.PC) % 65536 = 0xFFFD) (hne : cpu.PC ≠ 0xFFFD) :
    0 < c ∧ ∃ cpu' c', cpu.ExecuteStep c ldaImage = some (cpu', c', ldaImage) ∧
      cpu'.PC < 65536 ∧ c' < 4294967296 ∧ (c' + cpu'.PC) % 65536 = 0xFFFD ∧
      cpu'.PC ≠ 0xFFFD := by
  refine ⟨by omega, ?_⟩
  by_cases hpc : cpu.PC = 0xFFFC
  · have hop : ldaImage.Data cpu.PC = INS_LDA_IM := by rw [hpc]; rfl
    refine ⟨_, _, ExecuteStep_LDA_IM cpu c ldaImage hPC hop, ?_, decU32_lt _, ?_, ?_⟩
    · show (cpu.PC + 2) % 65536 < 65536
      omega
    · show (decU32 (decU32 c) + (cpu.PC + 2) % 65536) % 65536 = 0xFFFD
      unfold decU32
      omega
    · show (cpu.PC + 2) % 65536 ≠ 0xFFFD
      omega
  · have hop : ldaImage.Data cpu.PC = 0 := ldaImage_elsewhere _ hpc hne
    have hstep := ExecuteStep_default cpu c ldaImage hPC
      (by rw [hop]; decide) (by rw [hop]; decide) (by rw [hop]; decide) (by rw [hop]; decide)
    refine ⟨_, _, hstep, ?_, decU32_lt _, ?_, ?_⟩
    · show (cpu.PC + 1) % 65536 < 65536
      omega
    · show (decU32 c + (cpu.PC + 1) % 65536) % 65536 = 0xFFFD
      unfold decU32
      omega
    · show (cpu.PC + 1) % 65536 ≠ 0xFFFD
      omega

theorem ldaImage_never_returns (fuel : Nat) : ∀ (cpu : CPU) (c : Nat), cpu.PC < 65536 →
    c < 4294967296 → (c + cpu.PC) % 65536 = 0xFFFD → cpu.PC ≠ 0xFFFD →
    cpu.Execute fuel c ldaImage = Outcome.unfinished := by
  induction fuel with
  | zero =>
    intro cpu c hPC hc hinv hne
    have hpos : 0 < c := (ldaImage_step cpu c hPC hc hinv hne).1
    simp [CPU.Execute, hpos]
  | succ n ih =>
    intro cpu c hPC hc hinv hne
    obtain ⟨hpos, cpu', c', hstep, h1, h2, h3, h4⟩ := ldaImage_step cpu c hPC hc hinv hne
    rw [Execute_succ_of_pos n cpu c ldaImage hpos, hstep]
    exact ih cpu' c' h1 h2 h3 h4

/-- C9 (code evaluated at the failing input): `LDA #5` poked at `0xFFFC` into a zero-filled
memory, `PC = 0xFFFC`, budget 1. However many iterations the loop is given, it is still
running: the counter wraps from 1 to 4294967295 on the first instruction, and from then on
`(Cycles + PC) mod 65536 = 0xFFFD` with `PC ≠ 0xFFFD` at every loop test, so the test
`Cycles > 0` never fails. `Execute` does not return on this input. -/
theorem Execute_does_not_terminate :
    ∀ fuel, CPU.Execute fuel (CPU.zeroed 0xFFFC 0x0100 0) 1 ldaImage = Outcome.unfinished :=
  fun fuel => ldaImage_never_returns fuel (CPU.zeroed 0xFFFC 0x0100 0) 1
    (by decide) (by decide) (by decide) (by decide)

/-! ## States inside a run: basic facts -/

theorem ExecuteIter_succ_of_pos (n : Nat) (cpu : CPU) (c : Nat) (mem : Mem) (h : 0 < c) :
    cpu.ExecuteIter (n + 1) c mem =
      match cpu.ExecuteStep c mem with
      | some (cpu1, c1, mem1) => CPU.ExecuteIter n cpu1 c1 mem1
      | none => none := by
  simp [CPU.ExecuteIter, h]

theorem Execute_of_ExecuteIter (n : Nat) : ∀ (cpu : CPU) (c : Nat) (mem : Mem)
    (cpu' : CPU) (c' : Nat) (mem' : Mem), cpu.ExecuteIter n c mem = some (cpu', c', mem') →
    ∀ k, cpu.Execute (n + k) c mem = cpu'.Execute k c' mem' := by
  induction n with
  | zero =>
    intro cpu c mem cpu' c' mem' h k
    simp only [CPU.ExecuteIter, Option.some.injEq, Prod.mk.injEq] at h
    obtain ⟨h1, h2, h3⟩ := h
    rw [h1, h2, h3, Nat.zero_add]
  | succ n ih =>
    intro cpu c mem cpu' c' mem' h k
    by_cases hc : 0 < c
    · have e : n + 1 + k = (n + k) + 1 := by omega
      rw [e, Execute_succ_of_pos _ _ _ _ hc]
      rw [ExecuteIter_succ_of_pos _ _ _ _ hc] at h
      cases hs : cpu.ExecuteStep c mem with
      | none => rw [hs] at h; exact absurd h (by simp)
      | some t =>
        obtain ⟨cpu1, c1, mem1⟩ := t
        rw [hs] at h
        exact ih cpu1 c1 mem1 cpu' c' mem' h k
    · simp [CPU.ExecuteIter, hc] at h

theorem ExecuteIter_agree (n : Nat) : ∀ (cpu : CPU) (c : Nat) (m1 m2 : Mem), Mem.agree m1 m2 →
    (cpu.ExecuteIter n c m1).map (fun s => (s.1, s.2.1)) =
      (cpu.ExecuteIter n c m2).map (fun s => (s.1, s.2.1)) := by
  induction n with
  | zero =>
    intro cpu c m1 m2 _
    rfl
  | succ n ih =>
    intro cpu c m1 m2 h
    by_cases hc : 0 < c
    · rw [ExecuteIter_succ_of_pos _ _ _ _ hc, ExecuteIter_succ_of_pos _ _ _ _ hc]
      rcases ExecuteStep_agree cpu c m1 m2 h with ⟨e1, e2⟩ | ⟨cpu', c', n1, n2, e1, e2, hn⟩
      · rw [e1, e2]
      · rw [e1, e2]; exact ih cpu' c' n1 n2 hn
    · simp [CPU.ExecuteIter, hc]

theorem mainIter_eq (cpu : CPU) (mem : Mem) (n : Nat) :
    (mainIter cpu mem n).map (fun s => (s.1, s.2.1)) =
      (CPU.ExecuteIter n
        ⟨0xFFFC, 0x0100, 0, 0, 0, false, cpu.Z, false, false, false, false, false⟩ 20
        mainImage).map (fun s => (s.1, s.2.1)) := by
  obtain ⟨M0, hload, hagree⟩ := loadProgram_Initialize mem
  have h : mainIter cpu mem n = CPU.ExecuteIter n (cpu.Reset mem).1 20 M0 := by
    show (match loadProgram mem.Initialize with
      | some m => CPU.ExecuteIter n (cpu.Reset mem).1 20 m
      | none => none) = _
    rw [hload]
  rw [h, Reset_cpu]
  exact ExecuteIter_agree n _ 20 M0 mainImage hagree

theorem mainImage_iter (z : Bool) :
    (CPU.ExecuteIter 1 ⟨0xFFFC, 0x0100, 0, 0, 0, false, z, false, false, false, false, false⟩ 20
      mainImage).map (fun s => (s.1, s.2.1)) =
      some (⟨0xAA42, 0x0101, 0, 0, 0, false, z, false, false, false, false, false⟩, 14) ∧
    (CPU.ExecuteIter 2 ⟨0xFFFC, 0x0100, 0, 0, 0, false, z, false, false, false, false, false⟩ 20
      mainImage).map (fun s => (s.1, s.2.1)) =
      some (⟨0xAE15, 0x0102, 0, 0, 0, false, z, false, false, false, false, false⟩, 8) ∧
    (CPU.ExecuteIter 3 ⟨0xFFFC, 0x0100, 0, 0, 0, false, z, false, false, false, false, false⟩ 20
      mainImage).map (fun s => (s.1, s.2.1)) =
      some (⟨0xAE17, 0x0102, 5, 0, 0, false, false, false, false, false, false, false⟩, 6) ∧
    (CPU.ExecuteIter 9 ⟨0xFFFC, 0x0100, 0, 0, 0, false, z, false, false, false, false, false⟩ 20
      mainImage).map (fun s => (s.1, s.2.1)) =
      some (⟨0xAE1D, 0x0102, 5, 0, 0, false, false, false, false, false, false, false⟩, 0) ∧
    (CPU.ExecuteIter 10 ⟨0xFFFC, 0x0100, 0, 0, 0, false, z, false, false, false, false, false⟩ 20
      mainImage).map (fun s => (s.1, s.2.1)) = none := by
  cases z <;> exact ⟨rfl, rfl, rfl, rfl, rfl⟩

theorem main_and_mainIter (cpu : CPU) (mem : Mem) :
    ∃ M0, Mem.agree M0 mainImage ∧
      (∀ fuel, main cpu mem fuel = CPU.Execute fuel
        ⟨0xFFFC, 0x0100, 0, 0, 0, false, cpu.Z, false, false, false, false, false⟩ 20 M0) ∧
      (∀ n, mainIter cpu mem n = CPU.ExecuteIter n
        ⟨0xFFFC, 0x0100, 0, 0, 0, false, cpu.Z, false, false, false, false, false⟩ 20 M0) := by
  obtain ⟨M0, hload, hagree⟩ := loadProgram_Initialize mem
  refine ⟨M0, hagree, ?_, ?_⟩
  · intro fuel
    show (match loadProgram mem.Initialize with
      | some m => CPU.Execute fuel (cpu.Reset mem).1 20 m
      | none => Outcome.fault) = _
    rw [hload, Reset_cpu]
  · intro n
    show (match loadProgram mem.Initialize with
      | some m => CPU.ExecuteIter n (cpu.Reset mem).1 20 m
      | none => none) = _
    rw [hload, Reset_cpu]

theorem main_unfinished_after_three (cpu : CPU) (mem : Mem) :
    main cpu mem 3 = Outcome.unfinished := by
  obtain ⟨M0, hagree, hmain, hiter⟩ := main_and_mainIter cpu mem
  have h3 := (mainImage_iter cpu.Z).2.2.1
  have hmap := ExecuteIter_agree 3
    ⟨0xFFFC, 0x0100, 0, 0, 0, false, cpu.Z, false, false, false, false, false⟩ 20 M0 mainImage
    hagree
  rw [h3] at hmap
  cases hs : CPU.ExecuteIter 3
      ⟨0xFFFC, 0x0100, 0, 0, 0, false, cpu.Z, false, false, false, false, false⟩ 20 M0 with
  | none => rw [hs] at hmap; exact absurd hmap (by simp)
  | some t =>
    obtain ⟨cpu3, c3, m3⟩ := t
    rw [hs] at hmap
    simp only [Option.map_some', Option.some.injEq, Prod.mk.injEq] at hmap
    have e := Execute_of_ExecuteIter 3 _ _ _ _ _ _ hs 0
    rw [hmain]
    show CPU.Execute (3 + 0) _ 20 M0 = _
    rw [e, hmap.2]
    rfl

/-- C11 (counterexample): the run of `main` from a zeroed processor and a zeroed memory.
`Execute` returns with the counter at 0, not 6: the budget of 20 is consumed in full, not
only the 14 cycles of the three instructions. -/
theorem main_returns_with_budget_spent :
    (main (CPU.zeroed 0 0 0) ⟨fun _ => 0⟩ 9).observe =
      some (⟨0xAE1D, 0x0102, 5, 0, 0, false, false, false, false, false, false, false⟩, 0) ∧
    20 - 0 ≠ 6 + 6 + 2 := by
  obtain ⟨mem', h⟩ := main_run (CPU.zeroed 0 0 0) ⟨fun _ => 0⟩
  rw [h]
  exact ⟨rfl, by decide⟩

/-- C11 (amended): whatever the prior contents of `cpu` and `mem`, in the run of `main` with a
budget of 20 the counter at the loop test is 20, then 14, 8 and 6 after the first, second and
third instruction (`JSR`, `JSR`, `LDA #5`: costs 6, 6 and 2, so 14 in all, with `A = 5` and
`PC = 0xAE17`). With 6 cycles left the loop has not returned; it returns after 9 iterations,
with the counter at 0 and `A = 5`: the whole budget is consumed. -/
theorem main_cycle_accounting (cpu : CPU) (mem : Mem) (k : Nat) :
    (mainIter cpu mem 0).map (fun s => s.2.1) = some 20 ∧
    (mainIter cpu mem 1).map (fun s => s.2.1) = some (20 - 6) ∧
    (mainIter cpu mem 2).map (fun s => s.2.1) = some (20 - 6 - 6) ∧
    (mainIter cpu mem 3).map (fun s => (s.1.A, s.1.PC, s.2.1)) =
      some (5, 0xAE17, 20 - 6 - 6 - 2) ∧
    main cpu mem 3 = Outcome.unfinished ∧
    (mainIter cpu mem 9).map (fun s => s.2.1) = some 0 ∧
    ∃ cpu' mem', main cpu mem (9 + k) = Outcome.returned cpu' 0 mem' ∧ cpu'.A = 5 := by
  have hm : ∀ n, (mainIter cpu mem n).map (fun s => s.2.1) =
      ((CPU.ExecuteIter n
        ⟨0xFFFC, 0x0100, 0, 0, 0, false, cpu.Z, false, false, false, false, false⟩ 20
        mainImage).map (fun s => (s.1, s.2.1))).map (fun p => p.2) := by
    intro n
    rw [← mainIter_eq cpu mem n, Option.map_map]
    rfl
  have hm3 : (mainIter cpu mem 3).map (fun s => (s.1.A, s.1.PC, s.2.1)) =
      ((CPU.ExecuteIter 3
        ⟨0xFFFC, 0x0100, 0, 0, 0, false, cpu.Z, false, false, false, false, false⟩ 20
        mainImage).map (fun s => (s.1, s.2.1))).map (fun p => (p.1.A, p.1.PC, p.2)) := by
    rw [← mainIter_eq cpu mem 3, Option.map_map]
    rfl
  obtain ⟨h1, h2, h3, h9, -⟩ := mainImage_iter cpu.Z
  refine ⟨?_, ?_, ?_, ?_, main_unfinished_after_three cpu mem, ?_, ?_⟩
  · rw [hm 0]; rfl
  · rw [hm 1, h1]; rfl
  · rw [hm 2, h2]; rfl
  · rw [hm3, h3]; rfl
  · rw [hm 9, h9]; rfl
  · obtain ⟨M0, -, hmain⟩ := main_eq_Execute cpu mem
    obtain ⟨mem', hrun⟩ := main_run cpu mem
    rw [hmain] at hrun
    refine ⟨⟨0xAE1D, 0x0102, 5, 0, 0, false, false, false, false, false, false, false⟩, mem',
      ?_, rfl⟩
    rw [hmain]
    exact Execute_fuel_mono 9 k _ _ _ _ (fun h => Outcome.noConfusion h) hrun

/-! ## A program that only calls: the stack pointer climbs through memory -/

theorem jsrLoopImage_cells :
    jsrLoopImage.Data 0xFFFC = 0x20 ∧ jsrLoopImage.Data 0xFFFD = 0 ∧
    jsrLoopImage.Data 0xFFFE = 0 ∧ jsrLoopImage.Data 0 = 0x20 ∧ jsrLoopImage.Data 1 = 0 ∧
    jsrLoopImage.Data 2 = 0 := by
  decide

theorem jsrLoop_step (cpu : CPU) (c : Nat) (mem : Mem) (hPC : cpu.PC = 0)
    (hlo : 0x0100 ≤ cpu.SP) (hhi : cpu.SP < 0xFFFF) (hc : 6 ≤ c) (hc32 : c < 4294967296)
    (h0 : mem.Data 0 = 0x20) (h1 : mem.Data 1 = 0) (h2 : mem.Data 2 = 0) :
    ∃ cpu' mem', cpu.ExecuteStep c mem = some (cpu', c - 6, mem') ∧ cpu'.PC = 0 ∧
      cpu'.SP = cpu.SP + 1 ∧ cpu'.Z = cpu.Z ∧
      mem'.Data 0 = 0x20 ∧ mem'.Data 1 = 0 ∧ mem'.Data 2 = 0 := by
  have hcyc : decU32 (decU32 (decU32 (decU32 (decU32 (decU32 c))))) = c - 6 := by
    unfold decU32; omega
  have hop : mem.Data cpu.PC = INS_JSR := by rw [hPC]; exact h0
  have hstep := ExecuteStep_JSR cpu c mem (by omega) (by omega) hop
  rw [hcyc, hPC] at hstep
  have e1 : (0 + 1) % 65536 = 1 := by decide
  have e2 : (0 + 2) % 65536 = 2 := by decide
  rw [e1, e2, h1, h2] at hstep
  refine ⟨_, _, hstep, rfl, ?_, rfl, ?_, ?_, ?_⟩
  · show (cpu.SP + 1) % 65536 = cpu.SP + 1
    omega
  · have a1 : (0 : Nat) ≠ cpu.SP + 1 := by omega
    have a2 : (0 : Nat) ≠ cpu.SP := by omega
    simp only [a1, a2, if_false]
    exact h0
  · have a1 : (1 : Nat) ≠ cpu.SP + 1 := by omega
    have a2 : (1 : Nat) ≠ cpu.SP := by omega
    simp only [a1, a2, if_false]
    exact h1
  · have a1 : (2 : Nat) ≠ cpu.SP + 1 := by omega
    have a2 : (2 : Nat) ≠ cpu.SP := by omega
    simp only [a1, a2, if_false]
    exact h2

theorem jsrLoop_iter (n : Nat) : ∀ (cpu : CPU) (c : Nat) (mem : Mem), cpu.PC = 0 →
    0x0100 ≤ cpu.SP → cpu.SP + n ≤ 0xFFFF → 6 * n ≤ c → c < 4294967296 →
    mem.Data 0 = 0x20 → mem.Data 1 = 0 → mem.Data 2 = 0 →
    ∃ cpu' mem', cpu.ExecuteIter n c mem = some (cpu', c - 6 * n, mem') ∧ cpu'.PC = 0 ∧
      cpu'.SP = cpu.SP + n ∧ cpu'.Z = cpu.Z ∧
      mem'.Data 0 = 0x20 ∧ mem'.Data 1 = 0 ∧ mem'.Data 2 = 0 := by
  induction n with
  | zero =>
    intro cpu c mem hPC _ _ _ _ h0 h1 h2
    exact ⟨cpu, mem, rfl, hPC, rfl, rfl, h0, h1, h2⟩
  | succ n ih =>
    intro cpu c mem hPC hlo hhi hc hc32 h0 h1 h2
    obtain ⟨cpu1, mem1, hstep, p1, p2, p3, q0, q1, q2⟩ :=
      jsrLoop_step cpu c mem hPC hlo (by omega) (by omega) hc32 h0 h1 h2
    obtain ⟨cpu', mem', hiter, r1, r2, r3, s0, s1, s2⟩ :=
      ih cpu1 (c - 6) mem1 p1 (by omega) (by omega) (by omega) (by omega) q0 q1 q2
    refine ⟨cpu', mem', ?_, r1, by omega, by rw [r3, p3], s0, s1, s2⟩
    rw [ExecuteIter_succ_of_pos n cpu c mem (by omega), hstep]
    have e : c - 6 * (n + 1) = c - 6 - 6 * n := by omega
    rw [e]
    exact hiter

theorem jsrLoop_from_reset (z : Bool) (n c : Nat) (hn : n ≤ 0xFEFE) (hc : 6 * (n + 1) ≤ c)
    (hc32 : c < 4294967296) :
    ∃ cpu' mem', CPU.ExecuteIter (n + 1)
        ⟨0xFFFC, 0x0100, 0, 0, 0, false, z, false, false, false, false, false⟩ c jsrLoopImage =
        some (cpu', c - 6 * (n + 1), mem') ∧
      cpu'.PC = 0 ∧ cpu'.SP = 0x0101 + n ∧
      mem'.Data 0 = 0x20 ∧ mem'.Data 1 = 0 ∧ mem'.Data 2 = 0 := by
  have hcyc : decU32 (decU32 (decU32 (decU32 (decU32 (decU32 c))))) = c - 6 := by
    unfold decU32; omega
  have hfirst : ∃ cpu1 mem1, CPU.ExecuteStep
        ⟨0xFFFC, 0x0100, 0, 0, 0, false, z, false, false, false, false, false⟩ c jsrLoopImage =
        some (cpu1, c - 6, mem1) ∧
      cpu1.PC = 0 ∧ cpu1.SP = 0x0101 ∧
      mem1.Data 0 = 0x20 ∧ mem1.Data 1 = 0 ∧ mem1.Data 2 = 0 := by
    cases z
    · have hstep := ExecuteStep_JSR
        ⟨0xFFFC, 0x0100, 0, 0, 0, false, false, false, false, false, false, false⟩ c
        jsrLoopImage (by decide) (by decide) (by decide)
      rw [hcyc] at hstep
      exact ⟨_, _, hstep, by decide, by decide, by decide, by decide, by decide⟩
    · have hstep := ExecuteStep_JSR
        ⟨0xFFFC, 0x0100, 0, 0, 0, false, true, false, false, false, false, false⟩ c
        jsrLoopImage (by decide) (by decide) (by decide)
      rw [hcyc] at hstep
      exact ⟨_, _, hstep, by decide, by decide, by decide, by decide, by decide⟩
  obtain ⟨cpu1, mem1, hstep, p1, p2, q0, q1, q2⟩ := hfirst
  obtain ⟨cpu', mem', hiter, r1, r2, -, s0, s1, s2⟩ :=
    jsrLoop_iter n cpu1 (c - 6) mem1 p1 (by omega) (by omega) (by omega) (by omega) q0 q1 q2
  refine ⟨cpu', mem', ?_, r1, by omega, s0, s1, s2⟩
  rw [ExecuteIter_succ_of_pos n _ c jsrLoopImage (by omega), hstep]
  have e : c - 6 * (n + 1) = c - 6 - 6 * n := by omega
  rw [e]
  exact hiter

/-- C12 (code evaluated at the failing input): after `Reset`, the two pokes `mem[0xFFFC] = 0x20`
and `mem[0x0000] = 0x20` (that is, `JSR 0x0000` at the reset address and at `0x0000`), and
`Execute` with a budget of 391680 cycles. The first 65279 iterations are `JSR`s that raise `SP`
from `0x0100` to `0xFFFF`; the next one calls `WriteWord` with `Address = 0xFFFF` and stores the
high byte of the return address at `Data[0x10000]`, one past the last cell of the array. -/
theorem JSR_loop_writes_past_the_array (cpu : CPU) (mem : Mem) (k : Nat) :
    (∃ cpu' mem', CPU.ExecuteIter 65279 (cpu.Reset mem).1 391680 jsrLoopImage =
        some (cpu', 6, mem') ∧ cpu'.SP = 0xFFFF ∧ cpu'.SP + 1 = MAX_MEM ∧
        mem'.Data cpu'.PC = INS_JSR ∧ cpu'.ExecuteStep 6 mem' = none) ∧
    CPU.Execute (65280 + k) (cpu.Reset mem).1 391680 jsrLoopImage = Outcome.fault := by
  rw [Reset_cpu]
  obtain ⟨cpu', mem', hiter, r1, r2, s0, s1, s2⟩ :=
    jsrLoop_from_reset cpu.Z 65278 391680 (by decide) (by decide) (by decide)
  have hop : mem'.Data cpu'.PC = INS_JSR := by rw [r1]; exact s0
  have hSP : cpu'.SP = 0xFFFF := by rw [r2]
  have hstep : cpu'.ExecuteStep 6 mem' = none :=
    ExecuteStep_JSR_top cpu' 6 mem' (by omega) hSP hop
  refine ⟨⟨cpu', mem', hiter, hSP, by rw [hSP]; rfl, hop, hstep⟩, ?_⟩
  have e : 65280 + k = 65279 + (k + 1) := by omega
  rw [e, Execute_of_ExecuteIter 65279 _ _ _ _ _ _ hiter (k + 1),
    Execute_succ_of_pos k cpu' 6 mem' (by decide), hstep]


/-! ## What one iteration leaves alone -/

theorem FetchByte_none (cpu : CPU) (c : Nat) (mem : Mem) (h : ¬ cpu.PC < 65536) :
    cpu.FetchByte c mem = none := by
  have h2 : ¬ cpu.PC < MAX_MEM := h
  simp [CPU.FetchByte, Mem.read, h2]

theorem ReadByte_none (cpu : CPU) (c a : Nat) (mem : Mem) (h : ¬ a < 65536) :
    cpu.ReadByte c a mem = none := by
  have h2 : ¬ a < MAX_MEM := h
  simp [CPU.ReadByte, Mem.read, h2]

theorem WriteWord_none (mem : Mem) (v a c : Nat) (h : ¬ a + 1 < 65536) :
    mem.WriteWord v a c = none := by
  have h2 : ¬ a + 1 < MAX_MEM := h
  unfold Mem.WriteWord
  by_cases h1 : a < MAX_MEM
  · simp [Mem.write, h1, h2]
  · simp [Mem.write, h1]

theorem ExecuteStep_none_of_PC (cpu : CPU) (c : Nat) (mem : Mem) (h : ¬ cpu.PC < 65536) :
    cpu.ExecuteStep c mem = none := by
  unfold CPU.ExecuteStep
  rw [FetchByte_none _ _ _ h]
  rfl

theorem ExecuteStep_LDA_ZP_none (cpu : CPU) (c : Nat) (mem : Mem) (hPC : cpu.PC < 65536)
    (hop : mem.Data cpu.PC = INS_LDA_ZP) (hzp : ¬ mem.Data ((cpu.PC + 1) % 65536) < 65536) :
    cpu.ExecuteStep c mem = none := by
  have hlt : (cpu.PC + 1) % 65536 < 65536 := by omega
  have hne : ¬ (INS_LDA_ZP = INS_LDA_IM) := by decide
  unfold CPU.ExecuteStep
  rw [FetchByte_eq _ _ _ hPC]
  simp only [Option.bind_eq_bind, Option.some_bind, hop, if_true, hne, if_false]
  rw [FetchByte_eq _ _ _ hlt]
  simp only [Option.some_bind]
  rw [ReadByte_none _ _ _ _ hzp]
  rfl

theorem ExecuteStep_JSR_none (cpu : CPU) (c : Nat) (mem : Mem) (hPC : cpu.PC < 65536)
    (hSP : ¬ cpu.SP + 1 < 65536) (hop : mem.Data cpu.PC = INS_JSR) :
    cpu.ExecuteStep c mem = none := by
  have hlt : (cpu.PC + 1) % 65536 < 65536 := by omega
  have hne1 : ¬ (INS_JSR = INS_LDA_IM) := by decide
  have hne2 : ¬ (INS_JSR = INS_LDA_ZP) := by decide
  have hne3 : ¬ (INS_JSR = INS_LDA_ZPX) := by decide
  unfold CPU.ExecuteStep
  rw [FetchByte_eq _ _ _ hPC]
  simp only [Option.bind_eq_bind, Option.some_bind, hop, if_true, hne1, hne2, hne3, if_false]
  rw [FetchWord_eq _ _ _ hlt]
  simp only [Option.some_bind]
  rw [WriteWord_none _ _ _ _ hSP]
  rfl

theorem ExecuteStep_frame (cpu : CPU) (c : Nat) (mem : Mem) (cpu' : CPU) (c' : Nat)
    (mem' : Mem) (h : cpu.ExecuteStep c mem = some (cpu', c', mem')) :
    cpu'.X = cpu.X ∧ cpu'.Y = cpu.Y ∧ cpu'.C = cpu.C ∧ cpu'.I = cpu.I ∧ cpu'.D = cpu.D ∧
    cpu'.B = cpu.B ∧ cpu'.V = cpu.V ∧
    (mem.Data cpu.PC ≠ INS_JSR → cpu'.SP = cpu.SP ∧ mem' = mem) ∧
    (mem.Data cpu.PC = INS_JSR → cpu'.SP = cpu.SP + 1 ∧ cpu.SP + 1 < 65536) := by
  by_cases hPC : cpu.PC < 65536
  swap
  · rw [ExecuteStep_none_of_PC _ _ _ hPC] at h
    exact absurd h (by simp)
  by_cases i1 : mem.Data cpu.PC = INS_LDA_IM
  · rw [ExecuteStep_LDA_IM cpu c mem hPC i1] at h
    simp only [Option.some.injEq, Prod.mk.injEq] at h
    obtain ⟨h1, -, h3⟩ := h
    subst h1 h3
    have hne : mem.Data cpu.PC ≠ INS_JSR := by rw [i1]; decide
    exact ⟨rfl, rfl, rfl, rfl, rfl, rfl, rfl, fun _ => ⟨rfl, rfl⟩, fun e => absurd e hne⟩
  by_cases i2 : mem.Data cpu.PC = INS_LDA_ZP
  · have hne : mem.Data cpu.PC ≠ INS_JSR := by rw [i2]; decide
    by_cases hzp : mem.Data ((cpu.PC + 1) % 65536) < 65536
    · rw [ExecuteStep_LDA_ZP cpu c mem hPC i2 hzp] at h
      simp only [Option.some.injEq, Prod.mk.injEq] at h
      obtain ⟨h1, -, h3⟩ := h
      subst h1 h3
      exact ⟨rfl, rfl, rfl, rfl, rfl, rfl, rfl, fun _ => ⟨rfl, rfl⟩, fun e => absurd e hne⟩
    · rw [ExecuteStep_LDA_ZP_none cpu c mem hPC i2 hzp] at h
      exact absurd h (by simp)
  by_cases i3 : mem.Data cpu.PC = INS_LDA_ZPX
  · have hne : mem.Data cpu.PC ≠ INS_JSR := by rw [i3]; decide
    rw [ExecuteStep_LDA_ZPX cpu c mem hPC i3] at h
    simp only [Option.some.injEq, Prod.mk.injEq] at h
    obtain ⟨h1, -, h3⟩ := h
    subst h1 h3
    exact ⟨rfl, rfl, rfl, rfl, rfl, rfl, rfl, fun _ => ⟨rfl, rfl⟩, fun e => absurd e hne⟩
  by_cases i4 : mem.Data cpu.PC = INS_JSR
  · by_cases hSP : cpu.SP + 1 < 65536
    · rw [ExecuteStep_JSR cpu c mem hPC hSP i4] at h
      simp only [Option.some.injEq, Prod.mk.injEq] at h
      obtain ⟨h1, -, -⟩ := h
      subst h1
      exact ⟨rfl, rfl, rfl, rfl, rfl, rfl, rfl, fun e => absurd i4 e,
        fun _ => ⟨Nat.mod_eq_of_lt hSP, hSP⟩⟩
    · rw [ExecuteStep_JSR_none cpu c mem hPC hSP i4] at h
      exact absurd h (by simp)
  · rw [ExecuteStep_default cpu c mem hPC i1 i2 i3 i4] at h
    simp only [Option.some.injEq, Prod.mk.injEq] at h
    obtain ⟨h1, -, h3⟩ := h
    subst h1 h3
    exact ⟨rfl, rfl, rfl, rfl, rfl, rfl, rfl, fun _ => ⟨rfl, rfl⟩, fun e => absurd e i4⟩

theorem Execute_returned_iter (fuel : Nat) : ∀ (cpu : CPU) (c : Nat) (mem : Mem) (cpu' : CPU)
    (c' : Nat) (mem' : Mem), cpu.Execute fuel c mem = Outcome.returned cpu' c' mem' →
    c' = 0 ∧ ∃ n, n ≤ fuel ∧ cpu.ExecuteIter n c mem = some (cpu', c', mem') := by
  induction fuel with
  | zero =>
    intro cpu c mem cpu' c' mem' h
    by_cases hc : 0 < c
    · simp [CPU.Execute, hc] at h
    · simp only [CPU.Execute, gt_iff_lt, hc, if_false, Outcome.returned.injEq] at h
      obtain ⟨h1, h2, h3⟩ := h
      subst h1 h2 h3
      exact ⟨by omega, 0, Nat.le_refl _, rfl⟩
  | succ n ih =>
    intro cpu c mem cpu' c' mem' h
    by_cases hc : 0 < c
    · rw [Execute_succ_of_pos _ _ _ _ hc] at h
      cases hs : cpu.ExecuteStep c mem with
      | none => rw [hs] at h; exact Outcome.noConfusion h
      | some t =>
        obtain ⟨cpu1, c1, mem1⟩ := t
        rw [hs] at h
        obtain ⟨h0, m, hm, hiter⟩ := ih cpu1 c1 mem1 cpu' c' mem' h
        refine ⟨h0, m + 1, by omega, ?_⟩
        rw [ExecuteIter_succ_of_pos _ _ _ _ hc, hs]
        exact hiter
    · simp only [CPU.Execute, gt_iff_lt, hc, if_false, Outcome.returned.injEq] at h
      obtain ⟨h1, h2, h3⟩ := h
      subst h1 h2 h3
      exact ⟨by omega, 0, Nat.zero_le _, rfl⟩

theorem ExecuteIter_frame (n : Nat) : ∀ (cpu : CPU) (c : Nat) (mem : Mem) (cpu' : CPU)
    (c' : Nat) (mem' : Mem), cpu.ExecuteIter n c mem = some (cpu', c', mem') →
    cpu'.X = cpu.X ∧ cpu'.Y = cpu.Y ∧ cpu'.C = cpu.C ∧ cpu'.I = cpu.I ∧ cpu'.D = cpu.D ∧
    cpu'.B = cpu.B ∧ cpu'.V = cpu.V := by
  induction n with
  | zero =>
    intro cpu c mem cpu' c' mem' h
    simp only [CPU.ExecuteIter, Option.some.injEq, Prod.mk.injEq] at h
    obtain ⟨h1, -, -⟩ := h
    subst h1
    exact ⟨rfl, rfl, rfl, rfl, rfl, rfl, rfl⟩
  | succ n ih =>
    intro cpu c mem cpu' c' mem' h
    by_cases hc : 0 < c
    · rw [ExecuteIter_succ_of_pos _ _ _ _ hc] at h
      cases hs : cpu.ExecuteStep c mem with
      | none => rw [hs] at h; exact absurd h (by simp)
      | some t =>
        obtain ⟨cpu1, c1, mem1⟩ := t
        rw [hs] at h
        obtain ⟨a1, a2, a3, a4, a5, a6, a7, -, -⟩ := ExecuteStep_frame cpu c mem cpu1 c1 mem1 hs
        obtain ⟨b1, b2, b3, b4, b5, b6, b7⟩ := ih cpu1 c1 mem1 cpu' c' mem' h
        exact ⟨b1.trans a1, b2.trans a2, b3.trans a3, b4.trans a4, b5.trans a5, b6.trans a6,
          b7.trans a7⟩
    · simp [CPU.ExecuteIter, hc] at h

theorem ExecuteStep_defined (cpu : CPU) (c : Nat) (mem : Mem) (hcpu : cpu.WF) (hmem : mem.WF)
    (hSP : mem.Data cpu.PC = INS_JSR → cpu.SP < 0xFFFF) :
    (cpu.ExecuteStep c mem).isSome = true := by
  obtain ⟨hPC, -⟩ := hcpu
  by_cases i1 : mem.Data cpu.PC = INS_LDA_IM
  · rw [ExecuteStep_LDA_IM cpu c mem hPC i1]; rfl
  by_cases i2 : mem.Data cpu.PC = INS_LDA_ZP
  · have hzp : mem.Data ((cpu.PC + 1) % 65536) < 65536 := by
      have := hmem ((cpu.PC + 1) % 65536) (by unfold MAX_MEM; omega)
      omega
    rw [ExecuteStep_LDA_ZP cpu c mem hPC i2 hzp]; rfl
  by_cases i3 : mem.Data cpu.PC = INS_LDA_ZPX
  · rw [ExecuteStep_LDA_ZPX cpu c mem hPC i3]; rfl
  by_cases i4 : mem.Data cpu.PC = INS_JSR
  · have h := hSP i4
    rw [ExecuteStep_JSR cpu c mem hPC (by omega) i4]; rfl
  · rw [ExecuteStep_default cpu c mem hPC i1 i2 i3 i4]; rfl

/-- C13 (code evaluated at the failing input): after `Reset`, `JSR 0x0000` poked at `0xFFFC` and
at `0x0000`, and `Execute` with a budget of 1536 cycles (256 `JSR`s of 6 cycles each).
`Execute` returns with `SP = 0x0200`, outside page 1: every `JSR` has raised the 16-bit `SP`,
and nothing wraps it back into `0x0100 .. 0x01FF`. -/
theorem SP_leaves_page_one :
    ∃ cpu' mem', CPU.Execute 256 (CPU.Reset (CPU.zeroed 0 0 0) ⟨fun _ => 0⟩).1 1536
        jsrLoopImage = Outcome.returned cpu' 0 mem' ∧
      cpu'.SP = 0x0200 ∧ ¬ cpu'.SP ≤ 0x01FF := by
  rw [Reset_cpu]
  obtain ⟨cpu', mem', hiter, -, r2, -, -, -⟩ :=
    jsrLoop_from_reset (CPU.zeroed 0 0 0).Z 255 1536 (by decide) (by decide) (by decide)
  have e := Execute_of_ExecuteIter 256 _ _ _ _ _ _ hiter 0
  refine ⟨cpu', mem', ?_, by rw [r2], by rw [r2]; decide⟩
  show CPU.Execute (256 + 0) _ 1536 jsrLoopImage = _
  rw [e]
  exact Execute_zero_cycles 0 cpu' mem'

/-! ## The load instructions side by side -/

/-- C14: take any byte `V` and any three well-formed states: one about to run `LDA` immediate
with operand `V`, one about to run the code's zero-page load (`INS_LDA_ZP`) on a cell holding
`V`, one about to run `LDA` zero-page,X on an indexed cell holding `V`. All three iterations
succeed with `A = V` and with the same `Z` and the same `N`: `Z` is set exactly when the loaded
`A` is 0, and `N` is bit 7 of the loaded `A`. -/
theorem LDA_flags_same_in_all_modes (V : Nat) (hV : V < 256)
    (cpu1 cpu2 cpu3 : CPU) (c1 c2 c3 : Nat) (m1 m2 m3 : Mem)
    (w1 : cpu1.WF) (w2 : cpu2.WF) (w3 : cpu3.WF) (hm2 : m2.WF)
    (i1 : m1.Data cpu1.PC = INS_LDA_IM) (v1 : m1.Data ((cpu1.PC + 1) % 65536) = V)
    (i2 : m2.Data cpu2.PC = INS_LDA_ZP)
    (v2 : m2.Data (m2.Data ((cpu2.PC + 1) % 65536)) = V)
    (i3 : m3.Data cpu3.PC = INS_LDA_ZPX)
    (v3 : m3.Data ((m3.Data ((cpu3.PC + 1) % 65536) + cpu3.X) % 256) = V) :
    ∃ r1 r2 r3 d1 d2 d3, cpu1.ExecuteStep c1 m1 = some (r1, d1, m1) ∧
      cpu2.ExecuteStep c2 m2 = some (r2, d2, m2) ∧
      cpu3.ExecuteStep c3 m3 = some (r3, d3, m3) ∧
      r1.A = V ∧ r2.A = V ∧ r3.A = V ∧
      r1.Z = r2.Z ∧ r2.Z = r3.Z ∧ r1.N = r2.N ∧ r2.N = r3.N ∧
      (r1.Z = true ↔ r1.A = 0) ∧ r1.N = r1.A.testBit 7 := by
  have hzp : m2.Data ((cpu2.PC + 1) % 65536) < 65536 := by
    have := hm2 ((cpu2.PC + 1) % 65536) (by unfold MAX_MEM; omega)
    omega
  rw [ExecuteStep_LDA_IM cpu1 c1 m1 w1.1 i1, ExecuteStep_LDA_ZP cpu2 c2 m2 w2.1 i2 hzp,
    ExecuteStep_LDA_ZPX cpu3 c3 m3 w3.1 i3, v1, v2, v3]
  refine ⟨_, _, _, _, _, _, rfl, rfl, rfl, rfl, rfl, rfl, rfl, rfl, rfl, rfl, ?_,
    bit7_of_byte V hV⟩
  simp [CPU.LDASetStatus]

/-- Witness for C14: the byte `0x80` loaded by `LDA #0x80`, by `0x45 0x10` with cell `0x10`
holding `0x80`, and by `LDA 0x0F,X` with `X = 1`, from states with different budgets. -/
theorem LDA_flags_same_in_all_modes_witness :
    ∃ r1 r2 r3 d1 d2 d3,
      CPU.ExecuteStep (CPU.zeroed 0xFFFC 0x0100 0) 2
        (Mem.ofList [(0xFFFC, 0xA9), (0xFFFD, 0x80)]) =
        some (r1, d1, Mem.ofList [(0xFFFC, 0xA9), (0xFFFD, 0x80)]) ∧
      CPU.ExecuteStep (CPU.zeroed 0xFFFC 0x0100 0) 3 zpImage = some (r2, d2, zpImage) ∧
      CPU.ExecuteStep (CPU.zeroed 0xFFFC 0x0100 1) 4 zpxImage2 = some (r3, d3, zpxImage2) ∧
      r1.A = 0x80 ∧ r2.A = 0x80 ∧ r3.A = 0x80 ∧
      r1.Z = r2.Z ∧ r2.Z = r3.Z ∧ r1.N = r2.N ∧ r2.N = r3.N ∧
      (r1.Z = true ↔ r1.A = 0) ∧ r1.N = r1.A.testBit 7 :=
  LDA_flags_same_in_all_modes 0x80 (by decide)
    (CPU.zeroed 0xFFFC 0x0100 0) (CPU.zeroed 0xFFFC 0x0100 0) (CPU.zeroed 0xFFFC 0x0100 1)
    2 3 4 (Mem.ofList [(0xFFFC, 0xA9), (0xFFFD, 0x80)]) zpImage zpxImage2
    ⟨by decide, by decide, by decide, by decide, by decide⟩
    ⟨by decide, by decide, by decide, by decide, by decide⟩
    ⟨by decide, by decide, by decide, by decide, by decide⟩
    (Mem.ofList_WF _ (by decide)) (by decide) (by decide) (by decide) (by decide) (by decide)
    (by decide)

/-- C17: in every well-formed state whose byte at `PC` is the code's `INS_LDA_ZP`, followed by
the operand byte `zp`, one iteration of the `Execute` loop succeeds, leaves memory as it was,
and loads `A` from the cell `zp`, with `zp` in `0x00 .. 0xFF`; `Z` is set exactly when the
loaded value is 0 and `N` is its bit 7. The cycle counter is decremented three times (opcode
fetch, operand fetch, read): it ends at `(c - 3) mod 2^32`, exactly 3 lower when at least 3
cycles remain. `PC` moves to `(PC + 2) mod 65536`. -/
theorem LDA_ZP_step (cpu : CPU) (c : Nat) (mem : Mem) (zp : Nat)
    (hcpu : cpu.WF) (hmem : mem.WF) (hc32 : c < 4294967296)
    (hop : mem.Data cpu.PC = INS_LDA_ZP) (hzp : mem.Data ((cpu.PC + 1) % 65536) = zp) :
    ∃ cpu' c', cpu.ExecuteStep c mem = some (cpu', c', mem) ∧
      cpu'.A = mem.Data zp ∧ zp ≤ 0xFF ∧
      (cpu'.Z = true ↔ mem.Data zp = 0) ∧ cpu'.N = (mem.Data zp).testBit 7 ∧
      c' = decU32 (decU32 (decU32 c)) ∧
      c' = (c + 4294967296 - 3) % 4294967296 ∧ (3 ≤ c → c' + 3 = c) ∧
      cpu'.PC = (cpu.PC + 2) % 65536 := by
  obtain ⟨hPC, -⟩ := hcpu
  have hzp256 : zp < 256 := by
    rw [← hzp]; exact hmem _ (by unfold MAX_MEM; omega)
  have hv256 : mem.Data zp < 256 := hmem _ (by unfold MAX_MEM; omega)
  have hcyc : decU32 (decU32 (decU32 c)) = (c + 4294967296 - 3) % 4294967296 := by
    unfold decU32; omega
  rw [ExecuteStep_LDA_ZP cpu c mem hPC hop (by rw [hzp]; omega), hzp]
  refine ⟨_, _, rfl, rfl, by omega, ?_, bit7_of_byte _ hv256, rfl, hcyc, ?_, rfl⟩
  · simp [CPU.LDASetStatus]
  · intro h3
    rw [hcyc]; omega

/-- Witness for C17: `0x45 0x10` at `0xFFFC` with 3 cycles remaining and the byte `0x80` in
cell `0x0010`. -/
theorem LDA_ZP_step_witness :
    ∃ cpu' c', CPU.ExecuteStep (CPU.zeroed 0xFFFC 0x0100 0) 3 zpImage =
        some (cpu', c', zpImage) ∧
      cpu'.A = zpImage.Data 0x10 ∧ 0x10 ≤ 0xFF ∧
      (cpu'.Z = true ↔ zpImage.Data 0x10 = 0) ∧ cpu'.N = (zpImage.Data 0x10).testBit 7 ∧
      c' = decU32 (decU32 (decU32 3)) ∧
      c' = (3 + 4294967296 - 3) % 4294967296 ∧ (3 ≤ 3 → c' + 3 = 3) ∧
      cpu'.PC = (0xFFFC + 2) % 65536 :=
  LDA_ZP_step (CPU.zeroed 0xFFFC 0x0100 0) 3 zpImage 0x10
    ⟨by decide, by decide, by decide, by decide, by decide⟩
    (Mem.ofList_WF _ (by decide)) (by decide) (by decide) (by decide)

/-- C16 (code evaluated at the failing input): the bytes `0xA5 0x10` at `0xFFFC` (on the 6502,
`LDA 0x10`) with cell `0x0010` holding `0x33`. The constant `INS_LDA_ZP` is `0x45`, so `0xA5`
falls to the `default` case: `A` stays 0 instead of becoming `0x33`, and `PC` moves by 1 only,
so that the operand byte `0x10` is the next opcode fetched. -/
theorem opcode_A5_does_not_load :
    INS_LDA_ZP = 0x45 ∧
    realZpImage.Data 0xFFFC = 0xA5 ∧ realZpImage.Data 0xFFFD = 0x10 ∧
    realZpImage.Data 0x10 = 0x33 ∧
    CPU.ExecuteStep (CPU.zeroed 0xFFFC 0x0100 0) 20 realZpImage =
      some (⟨0xFFFD, 0x0100, 0, 0, 0, false, false, false, false, false, false, false⟩, 19,
        realZpImage) := by
  refine ⟨rfl, by decide, by decide, by decide, ?_⟩
  rw [ExecuteStep_default _ _ _ (by decide) (by decide) (by decide) (by decide) (by decide)]
  rfl

/-! ## `FetchWord` -/

/-- C18: `Execute` called with a budget of 0 returns at once, for every iteration bound, with
the processor state (`PC`, `SP`, `A`, `X`, `Y`, all flags) and the memory it was given; no
iteration of the loop, hence no fetch, takes place. -/
theorem Execute_zero_budget_changes_nothing (fuel : Nat) (cpu : CPU) (mem : Mem) :
    cpu.Execute fuel 0 mem = Outcome.returned cpu 0 mem ∧
    (∀ n, cpu.ExecuteIter (n + 1) 0 mem = none) := by
  refine ⟨?_, ?_⟩
  · cases fuel <;> simp [CPU.Execute]
  · intro n
    simp [CPU.ExecuteIter]

/-- C19 (code evaluated at the failing input): the program built by `main`, whose first two
instructions are `JSR`s, from `SP = 0x0100`. After the first `JSR` the cells `0x0100`, `0x0101`
hold the return address `0xFFFE` (`0xFE`, `0xFF`). The second `JSR` (at `0xAA42`, return address
`0xAA44`) is pushed at `SP = 0x0101`: it stores `0x44` in cell `0x0101`, over the high byte of
the first return address, which now reads `0x44FE`. -/
theorem second_JSR_overwrites_first_return_address :
    mainImage.Data 0xFFFC = INS_JSR ∧ mainImage.Data 0xAA42 = INS_JSR ∧
    (CPU.ExecuteIter 1 (CPU.zeroed 0xFFFC 0x0100 0) 20 mainImage).map
        (fun s => (s.1.PC, s.1.SP, s.2.2.Data 0x0100, s.2.2.Data 0x0101)) =
      some (0xAA42, 0x0101, 0xFE, 0xFF) ∧
    (CPU.ExecuteIter 2 (CPU.zeroed 0xFFFC 0x0100 0) 20 mainImage).map
        (fun s => (s.1.PC, s.1.SP, s.2.2.Data 0x0100, s.2.2.Data 0x0101, s.2.2.Data 0x0102)) =
      some (0xAE15, 0x0102, 0xFE, 0x44, 0xAA) := by
  exact ⟨by decide, by decide, rfl, rfl⟩

/-- C20: for every state and memory (so for every opcode byte at `PC`), an iteration of the
`Execute` loop that yields a state leaves `X`, `Y`, `C`, `I`, `D`, `B` and `V` as they were,
and, when the opcode is not `INS_JSR`, leaves `SP` and the whole memory as they were. The
iteration does yield a state in every well-formed state, except for `INS_JSR` at
`SP = 0xFFFF`. Consequently, whenever `Execute` returns, `X`, `Y`, `C`, `I`, `D`, `B` and `V`
have the values they had at the call. -/
theorem Execute_frame (cpu : CPU) (c : Nat) (mem : Mem) :
    (∀ cpu' c' mem', cpu.ExecuteStep c mem = some (cpu', c', mem') →
      cpu'.X = cpu.X ∧ cpu'.Y = cpu.Y ∧ cpu'.C = cpu.C ∧ cpu'.I = cpu.I ∧ cpu'.D = cpu.D ∧
      cpu'.B = cpu.B ∧ cpu'.V = cpu.V ∧
      (mem.Data cpu.PC ≠ INS_JSR → cpu'.SP = cpu.SP ∧ mem' = mem)) ∧
    (cpu.WF → mem.WF → (mem.Data cpu.PC = INS_JSR → cpu.SP < 0xFFFF) →
      (cpu.ExecuteStep c mem).isSome = true) ∧
    (∀ fuel cpu' c' mem', cpu.Execute fuel c mem = Outcome.returned cpu' c' mem' →
      cpu'.X = cpu.X ∧ cpu'.Y = cpu.Y ∧ cpu'.C = cpu.C ∧ cpu'.I = cpu.I ∧ cpu'.D = cpu.D ∧
      cpu'.B = cpu.B ∧ cpu'.V = cpu.V) := by
  refine ⟨?_, ?_, ?_⟩
  · intro cpu' c' mem' h
    obtain ⟨a1, a2, a3, a4, a5, a6, a7, f1, -⟩ := ExecuteStep_frame cpu c mem cpu' c' mem' h
    exact ⟨a1, a2, a3, a4, a5, a6, a7, f1⟩
  · intro hcpu hmem hSP
    exact ExecuteStep_defined cpu c mem hcpu hmem hSP
  · intro fuel cpu' c' mem' h
    obtain ⟨-, n, -, hiter⟩ := Execute_returned_iter fuel cpu c mem cpu' c' mem' h
    exact ExecuteIter_frame n cpu c mem cpu' c' mem' hiter

/-- Witness for C20: `LDA 0x80,X` at `0xFFFC` with `X = 0xFF` and 4 cycles. The iteration is
defined, it is the whole run of `Execute` (the counter reaches 0), and `X`, `Y`, the flags
`C`, `I`, `D`, `B`, `V`, `SP` and memory are as before. -/
theorem Execute_frame_witness :
    ∃ cpu' c' mem', CPU.ExecuteStep (CPU.zeroed 0xFFFC 0x0100 0xFF) 4 zpxImage =
        some (cpu', c', mem') ∧
      CPU.Execute 1 (CPU.zeroed 0xFFFC 0x0100 0xFF) 4 zpxImage =
        Outcome.returned cpu' c' mem' ∧
      (CPU.ExecuteStep (CPU.zeroed 0xFFFC 0x0100 0xFF) 4 zpxImage).isSome = true ∧
      (cpu'.X = 0xFF ∧ cpu'.Y = 0 ∧ cpu'.C = false ∧ cpu'.I = false ∧ cpu'.D = false ∧
        cpu'.B = false ∧ cpu'.V = false ∧
        (zpxImage.Data 0xFFFC ≠ INS_JSR → cpu'.SP = 0x0100 ∧ mem' = zpxImage)) ∧
      (cpu'.X = 0xFF ∧ cpu'.Y = 0 ∧ cpu'.C = false ∧ cpu'.I = false ∧ cpu'.D = false ∧
        cpu'.B = false ∧ cpu'.V = false) := by
  have hstep : CPU.ExecuteStep (CPU.zeroed 0xFFFC 0x0100 0xFF) 4 zpxImage =
      some (⟨0xFFFE, 0x0100, 0x33, 0xFF, 0, false, false, false, false, false, false, false⟩,
        0, zpxImage) := by
    rw [ExecuteStep_LDA_ZPX _ _ _ (by decide) (by decide)]
    rfl
  have hrun : CPU.Execute 1 (CPU.zeroed 0xFFFC 0x0100 0xFF) 4 zpxImage = Outcome.returned
      ⟨0xFFFE, 0x0100, 0x33, 0xFF, 0, false, false, false, false, false, false, false⟩
        0 zpxImage := by
    rw [Execute_succ_of_pos 0 _ _ _ (by decide), hstep]
    rfl
  have h := Execute_frame (CPU.zeroed 0xFFFC 0x0100 0xFF) 4 zpxImage
  exact ⟨_, _, _, hstep, hrun,
    h.2.1 ⟨by decide, by decide, by decide, by decide, by decide⟩
      (Mem.ofList_WF _ (by decide)) (fun e => absurd e (by decide)),
    h.1 _ _ _ hstep, h.2.2 1 _ _ _ hrun⟩

end Emu6502
